import Mathlib

/-!
# Verification of the SentixAI review-ingestion pipeline

Shallow embedding of the CSV tokenizer (`parseCSV`), review extractor
(`parseReviews`), serializer (`serializeReviews`), merge algorithm
(`mergeReviewsInCsv`), date resolver (`parseDate`) and the time-window
filters (`filterCsvByTime`, `filterCsvByTimeRange`, `filterCsvByDaysRange`)
of the SentixAI repository, together with theorems settling the spec claims.

Modelling conventions:
* JavaScript strings are `String`, scanned as `List Char`.
* Instants (`Date` values) are `Int` milliseconds since the Unix epoch;
  local time is identified with UTC (the spec declares "no timezone-correct
  date math" as a non-goal).
* JavaScript `number` arguments that may be fractional (month counts) are
  `ℚ`; `new Date(t)` truncation of a fractional millisecond argument toward
  zero is modelled by `jsTrunc`.
* `String(n)` for an integral number is modelled by `jsIntStr`.
-/

namespace SentixAI

/- Batteries marks the rational-number operations irreducible, which keeps
the `decide` evaluation of the fractional month-count arithmetic from
unfolding; restore the (sound) default transparency inside this file. -/
attribute [local semireducible] Rat.mul Rat.add Rat.sub Rat.inv

/-! ## JavaScript string primitives -/

/-- ASCII whitespace recognised by the model of String.prototype.trim. -/
def isJsWs (c : Char) : Bool :=
  c = ' ' || c = '\t' || c = '\n' || c = '\r' || c = '\x0b' || c = '\x0c'

def jsTrimList (cs : List Char) : List Char :=
  ((cs.dropWhile isJsWs).reverse.dropWhile isJsWs).reverse

/-- Model of `s.trim()`. -/
def jsTrim (s : String) : String := ⟨jsTrimList s.data⟩

/-- Model of `s.toLowerCase()` (ASCII). -/
def jsLower (s : String) : String := ⟨s.data.map Char.toLower⟩

def listHasSub (sub l : List Char) : Bool :=
  l.tails.any (fun t => sub.isPrefixOf t)

/-- Model of `s.includes(sub)`. -/
def strIncludes (s sub : String) : Bool := listHasSub sub.data s.data

def isDigitCh (c : Char) : Bool := '0' ≤ c && c ≤ '9'

/-- Numeric value of a digit string (used for `parseInt` on all-digit text). -/
def digitsToNat (cs : List Char) : Nat :=
  cs.foldl (fun a c => a * 10 + (c.toNat - 48)) 0

/-- The first maximal digit run of the text: model of `s.match(/\d+/)`. -/
def firstDigitRun : List Char → Option (List Char)
  | [] => none
  | c :: rest =>
    if isDigitCh c then some (c :: rest.takeWhile isDigitCh)
    else firstDigitRun rest

/-- Model of `parseInt` applied to the first digit run, if any. -/
def jsFirstIntOf (s : String) : Option Nat :=
  (firstDigitRun s.data).map digitsToNat

theorem dropWhile_length_le {α : Type} (p : α → Bool) (l : List α) :
    (l.dropWhile p).length ≤ l.length := by
  induction l with
  | nil => simp [List.dropWhile]
  | cons a l ih =>
    simp only [List.dropWhile]
    split
    · exact Nat.le_succ_of_le ih
    · simp

/-- Model of `s.replace(/\s+/g, ' ')`: each whitespace run becomes a single
space. The Boolean flag records whether the previous character was part of a
whitespace run already emitted. -/
def collapseWsAux : List Char → Bool → List Char
  | [], _ => []
  | c :: rest, prevWs =>
    if isJsWs c then
      if prevWs then collapseWsAux rest true
      else ' ' :: collapseWsAux rest true
    else c :: collapseWsAux rest false

def collapseWsList (cs : List Char) : List Char := collapseWsAux cs false

/-- Model of `s.replace(/"/g, '')`. -/
def stripQuotes (s : String) : String := ⟨s.data.filter (fun c => c ≠ '"')⟩

def digitChar (d : Nat) : Char :=
  if d = 0 then '0' else if d = 1 then '1' else if d = 2 then '2'
  else if d = 3 then '3' else if d = 4 then '4' else if d = 5 then '5'
  else if d = 6 then '6' else if d = 7 then '7' else if d = 8 then '8'
  else '9'

/-- Decimal digits, with structural fuel (any fuel above the value works). -/
def natDecimalAux : Nat → Nat → List Char
  | 0, _ => []
  | fuel + 1, n =>
    if n < 10 then [digitChar n]
    else natDecimalAux fuel (n / 10) ++ [digitChar (n % 10)]

/-- Decimal digits of a natural number. -/
def natDecimal (n : Nat) : List Char := natDecimalAux (n + 1) n

theorem natDecimalAux_congr :
    ∀ (f1 f2 n : Nat), n < f1 → n < f2 →
      natDecimalAux f1 n = natDecimalAux f2 n := by
  intro f1
  induction f1 with
  | zero => intro f2 n h1; omega
  | succ f1 ih =>
    intro f2 n h1 h2
    cases f2 with
    | zero => omega
    | succ f2 =>
      simp only [natDecimalAux]
      split
      · rfl
      · rename_i hn
        rw [ih f2 (n / 10) (by omega) (by omega)]

/-- The recursive characterization of `natDecimal`. -/
theorem natDecimal_eq (n : Nat) :
    natDecimal n =
      if n < 10 then [digitChar n]
      else natDecimal (n / 10) ++ [digitChar (n % 10)] := by
  unfold natDecimal
  rw [show natDecimalAux (n + 1) n =
    if n < 10 then [digitChar n]
    else natDecimalAux n (n / 10) ++ [digitChar (n % 10)] from rfl]
  split
  · rfl
  · rename_i hn
    rw [natDecimalAux_congr n (n / 10 + 1) (n / 10) (by omega) (by omega)]

/-- Model of `String(n)` for an integral JavaScript number. -/
def jsIntStr (i : Int) : String :=
  if i < 0 then ⟨'-' :: natDecimal i.natAbs⟩ else ⟨natDecimal i.toNat⟩

/-- Model of `[s1, ..., sn].join(sep)`. -/
def joinWith (sep : String) : List String → String
  | [] => ""
  | [x] => x
  | x :: xs => x ++ sep ++ joinWith sep xs

/-! ## CsvTokenizer (`parseCSV`, src/utils/csvParser.ts)

Single left-to-right scan with an `inQuotes` flag, a cell accumulator and a
row accumulator, mirroring the source's if/else chain character by
character. -/

def parseCSVAux : List Char → Bool → List Char → List String →
    List (List String) → List (List String)
  | [], _, cell, row, rows =>
    if cell = [] ∧ row = [] then rows
    else rows ++ [row ++ [String.mk cell]]
  | '"' :: '"' :: rest, true, cell, row, rows =>
    parseCSVAux rest true (cell ++ ['"']) row rows
  | '"' :: rest, true, cell, row, rows =>
    parseCSVAux rest false cell row rows
  | '"' :: rest, false, cell, row, rows =>
    parseCSVAux rest true cell row rows
  | ',' :: rest, false, cell, row, rows =>
    parseCSVAux rest false [] (row ++ [String.mk cell]) rows
  | '\r' :: '\n' :: rest, false, cell, row, rows =>
    parseCSVAux rest false [] [] (rows ++ [row ++ [String.mk cell]])
  | '\r' :: rest, false, cell, row, rows =>
    parseCSVAux rest false [] [] (rows ++ [row ++ [String.mk cell]])
  | '\n' :: rest, false, cell, row, rows =>
    parseCSVAux rest false [] [] (rows ++ [row ++ [String.mk cell]])
  | c :: rest, inQ, cell, row, rows =>
    parseCSVAux rest inQ (cell ++ [c]) row rows

/-- Function `parseCSV` from src/utils/csvParser.ts. -/
def parseCSV (text : String) : List (List String) :=
  parseCSVAux text.data false [] [] []

/-! ## Data model -/

/-- The canonical `Review` record (src/types.ts). `rating` is a JavaScript
`number` that the extractor always fills with an integer, modelled as `Int`. -/
structure Review where
  author : String
  date : String
  content : String
  rating : Int
  source : String
deriving DecidableEq, Repr

/-! ## ReviewExtractor (`parseReviews`, src/utils/csvParser.ts) -/

/-- Predicate `isHeaderRow` from csvParser: lower-cased, trimmed, space-joined cells
contain "reviewer" or "author". -/
def isHeaderRow (row : List String) : Bool :=
  let lower := joinWith " " (row.map (fun c => jsTrim (jsLower c)))
  strIncludes lower "reviewer" || strIncludes lower "author"

/-- Header-row discovery: first of the first 10 rows satisfying
`isHeaderRow`, else row 0. -/
def headerRowIdxOf (rows : List (List String)) : Nat :=
  match (rows.take 10).findIdx? (fun r => isHeaderRow r) with
  | some i => i
  | none => 0

/-- The lower-cased, trimmed header labels of the discovered header row. -/
def headerOf (rows : List (List String)) : List String :=
  (rows.getD (headerRowIdxOf rows) []).map (fun h => jsTrim (jsLower h))

def authorIdxOf (header : List String) : Option Nat :=
  header.findIdx? (fun h => strIncludes h "author" || strIncludes h "reviewer")

def dateIdxOf (header : List String) : Option Nat :=
  header.findIdx? (fun h => h = "commented_at" || h = "time" || h = "date")

def contentIdxOf (header : List String) : Option Nat :=
  header.findIdx? (fun h => h = "content" || h = "comment")

def ratingIdxOf (header : List String) : Option Nat :=
  header.findIdx? (fun h => strIncludes h "rating" && !(strIncludes h "overall"))

def sourceIdxOf (header : List String) : Option Nat :=
  header.findIdx? (fun h => strIncludes h "source" || strIncludes h "souce")

/-- Model of `s || dflt` for the trimmed-cell-or-sentinel pattern. -/
def orDefault (s dflt : String) : String := if s = "" then dflt else s

/-- Model of `cells[idx]?.trim() || ''` where `idx` may be `-1` (a failed findIndex). -/
def optCell (cells : List String) : Option Nat → String
  | some i => jsTrim (cells.getD i "")
  | none => ""

/-- Per-row transform of `parseReviews` given the resolved column indices. -/
def rowToReview (ai ci ri : Nat) (di si : Option Nat) (cells : List String) :
    Review :=
  let ratingStr := cells.getD ri ""
  let rating : Int := match jsFirstIntOf ratingStr with
    | some n => (n : Int)
    | none => 0
  { author := orDefault (jsTrim (cells.getD ai "")) "Anonymous"
    date := optCell cells di
    content := jsTrim (cells.getD ci "")
    rating := rating
    source := orDefault (optCell cells si) "google" }

/-- Function `parseReviews` from src/utils/csvParser.ts. -/
def parseReviews (csvContent : String) : List Review :=
  if csvContent = "" then []
  else
    let rows := parseCSV csvContent
    if rows.length < 2 then []
    else
      let header := headerOf rows
      match authorIdxOf header, contentIdxOf header, ratingIdxOf header with
      | some ai, some ci, some ri =>
        ((rows.drop (headerRowIdxOf rows + 1)).filter
            (fun row => 1 < row.length)).map
          (rowToReview ai ci ri (dateIdxOf header) (sourceIdxOf header))
      | _, _, _ => []

/-! ## Serializer and merge (src/utils/csvMerge.ts) -/

def doubleQuotesList : List Char → List Char
  | [] => []
  | c :: rest =>
    if c = '"' then '"' :: '"' :: doubleQuotesList rest
    else c :: doubleQuotesList rest

/-- Function `escapeCsvCell`: trim, then quote (doubling quotes) when the cell
contains a comma, quote or line break. -/
def escapeCsvCell (value : String) : String :=
  let s := jsTrim value
  if strIncludes s "," || strIncludes s "\"" || strIncludes s "\n"
      || strIncludes s "\r" then
    "\"" ++ String.mk (doubleQuotesList s.data) ++ "\""
  else s

/-- Function `serializeReviews`: canonical five-column CSV. The `rating` number is
coerced to text as in `String(value)`. -/
def serializeReviews (reviews : List Review) : String :=
  let header := "author,date,content,rating,source"
  let rows := reviews.map (fun r =>
    joinWith ","
      ([r.author, r.date, r.content, jsIntStr r.rating, r.source].map
        escapeCsvCell))
  joinWith "\n" (header :: rows)

/-- Function `normalize`: lower-case, trim, collapse whitespace runs. -/
def normalize (s : String) : String :=
  ⟨collapseWsList (jsTrimList (jsLower s).data)⟩

/-- Function `fingerprintNoDate`: dedup key `author|content|rating`, date excluded. -/
def fingerprintNoDate (r : Review) : String :=
  normalize r.author ++ "|" ++ normalize r.content ++ "|" ++ jsIntStr r.rating

/-- Association list modelling the JS `Map<string, number>` of fingerprints
to first-occurrence indices (insertion order preserved). -/
abbrev KeyMap := List (String × Nat)

def lookupKey : KeyMap → String → Option Nat
  | [], _ => none
  | (k, v) :: rest, key => if k = key then some v else lookupKey rest key

/-- The `existingReviews.forEach` loop that records each fingerprint's first
occurrence index. -/
def buildKeyMapAux : List Review → KeyMap → Nat → KeyMap
  | [], m, _ => m
  | r :: rs, m, i =>
    let key := fingerprintNoDate r
    if (lookupKey m key).isSome then buildKeyMapAux rs m (i + 1)
    else buildKeyMapAux rs (m ++ [(key, i)]) (i + 1)

def buildKeyMap (rs : List Review) : KeyMap := buildKeyMapAux rs [] 0

def setDate (r : Review) (d : String) : Review := { r with date := d }

/-- State of the merge loop: the evolving review list, the fingerprint map
and the set of fingerprints first seen in the new batch. -/
structure MergeState where
  reviews : List Review
  byKey : KeyMap
  seenNew : List String

/-- The `for (const newR of newReviews)` loop of `mergeReviewsInCsv`:
a fingerprint hit overwrites the date at the recorded index, a fresh
fingerprint not yet seen in this batch is appended and registered. -/
def mergeLoop : MergeState → List Review → MergeState
  | st, [] => st
  | st, newR :: rest =>
    let key := fingerprintNoDate newR
    match lookupKey st.byKey key with
    | some idx =>
      let reviews' := match st.reviews.get? idx with
        | some old => st.reviews.set idx (setDate old newR.date)
        | none => st.reviews
      mergeLoop { st with reviews := reviews' } rest
    | none =>
      if key ∈ st.seenNew then mergeLoop st rest
      else
        mergeLoop
          { reviews := st.reviews ++ [newR]
            byKey := st.byKey ++ [(key, st.reviews.length)]
            seenNew := key :: st.seenNew } rest

/-- The merged review list produced from parsed existing and new reviews. -/
def mergeLists (existingReviews newReviews : List Review) : List Review :=
  (mergeLoop ⟨existingReviews, buildKeyMap existingReviews, []⟩
    newReviews).reviews

/-- Segment count of `s.split(/\r?\n/)`: `\r\n` and `\n` separate, a lone
`\r` does not. -/
def splitLineCount : List Char → Nat
  | [] => 1
  | '\r' :: '\n' :: rest => 1 + splitLineCount rest
  | '\n' :: rest => 1 + splitLineCount rest
  | _ :: rest => splitLineCount rest

def jsLineCount (s : String) : Nat := splitLineCount s.data

/-- Function `mergeReviewsInCsv` from src/utils/csvMerge.ts. The `typeof` guards of
the source can only fire on non-string arguments, which do not exist in the
model; `!csv` is emptiness. -/
def mergeReviewsInCsv (existingCsv newCsv : String) : String :=
  if existingCsv = "" then (if newCsv = "" then "" else newCsv)
  else if newCsv = "" then existingCsv
  else
    let existingReviews := parseReviews existingCsv
    let newReviews := parseReviews newCsv
    let existingHasContent := 1 < jsLineCount (jsTrim existingCsv)
    if existingHasContent ∧ existingReviews = [] then existingCsv
    else if newReviews = [] then existingCsv
    else serializeReviews (mergeLists existingReviews newReviews)

/-! ## Calendar arithmetic

Civil-calendar day numbering (proleptic Gregorian, days relative to
1970-01-01), with local time identified with UTC. `Int.fdiv`/`Int.fmod` give
the floored division the algorithms require. -/

def daysFromCivil (y m d : Int) : Int :=
  let y' := if m ≤ 2 then y - 1 else y
  let era := Int.fdiv y' 400
  let yoe := y' - era * 400
  let mp := Int.fmod (m + 9) 12
  let doy := Int.fdiv (153 * mp + 2) 5 + (d - 1)
  let doe := yoe * 365 + Int.fdiv yoe 4 - Int.fdiv yoe 100 + doy
  era * 146097 + doe - 719468

/-- Inverse of `daysFromCivil`: (year, month 1..12, day 1..31). -/
def civilFromDays (z : Int) : Int × Int × Int :=
  let z' := z + 719468
  let era := Int.fdiv z' 146097
  let doe := z' - era * 146097
  let yoe := Int.fdiv
    (doe - Int.fdiv doe 1460 + Int.fdiv doe 36524 - Int.fdiv doe 146096) 365
  let y := yoe + era * 400
  let doy := doe - (365 * yoe + Int.fdiv yoe 4 - Int.fdiv yoe 100)
  let mp := Int.fdiv (5 * doy + 2) 153
  let d := doy - Int.fdiv (153 * mp + 2) 5 + 1
  let m := mp + (if mp < 10 then 3 else -9)
  (if m ≤ 2 then y + 1 else y, m, d)

def MS_PER_DAY : Int := 24 * 60 * 60 * 1000

/-- Model of `new Date(year, month0, day)` at local midnight: the ECMAScript
two-digit-year rule maps 0..99 to 1900..1999, then `MakeDay` normalises the
zero-based month and lets out-of-range days roll over linearly. -/
def jsMakeDate (year month0 day : Int) : Int :=
  let yFull := if 0 ≤ year ∧ year ≤ 99 then 1900 + year else year
  let ym := yFull + Int.fdiv month0 12
  let m1 := Int.fmod month0 12 + 1
  MS_PER_DAY * (daysFromCivil ym m1 day)

def dayNumberOf (t : Int) : Int := Int.fdiv t MS_PER_DAY

/-- Model of `getFullYear()` of an instant (UTC = local). -/
def yearOf (t : Int) : Int := (civilFromDays (dayNumberOf t)).1

/-- Model of `getMonth()` of an instant: zero-based month (UTC = local). -/
def month0Of (t : Int) : Int := (civilFromDays (dayNumberOf t)).2.1 - 1

/-- Model of `new Date(now.getFullYear(), now.getMonth(), 1)`. -/
def firstOfMonthTs (t : Int) : Int := jsMakeDate (yearOf t) (month0Of t) 1

def isLeapYear (y : Int) : Bool :=
  (Int.fmod y 4 = 0 && Int.fmod y 100 ≠ 0) || Int.fmod y 400 = 0

def daysInMonth (y m : Int) : Int :=
  if m = 2 then (if isLeapYear y then 29 else 28)
  else if m = 4 ∨ m = 6 ∨ m = 9 ∨ m = 11 then 30
  else 31

/-- Model of the absolute parse `new Date(s)`, covering the ECMAScript
date-time string format in its date-only form `YYYY-MM-DD` (interpreted as
UTC midnight, with calendar validity checks). Engine-specific fallback
formats beyond the standard one are modelled as unparseable, so they fall
through to `parseDate`'s reference-instant fallback. -/
def parseIsoDate (cs : List Char) : Option Int :=
  match cs with
  | [y1, y2, y3, y4, '-', m1, m2, '-', d1, d2] =>
    if [y1, y2, y3, y4, m1, m2, d1, d2].all isDigitCh then
      let y : Int := (digitsToNat [y1, y2, y3, y4] : Nat)
      let m : Int := (digitsToNat [m1, m2] : Nat)
      let d : Int := (digitsToNat [d1, d2] : Nat)
      if 1 ≤ m ∧ m ≤ 12 ∧ 1 ≤ d ∧ d ≤ daysInMonth y m then
        some (MS_PER_DAY * daysFromCivil y m d)
      else none
    else none
  | _ => none

/-! ## DateResolver (`parseDate`, src/utils/csvFilter.ts) -/

def sepCh (c : Char) : Bool := c = '/' || c = '-'

/-- One or two digits followed by `/` or `-` (the separator is consumed),
with the backtracking behaviour of the greedy `\d{1,2}[\/\-]` prefix. -/
def grabNum12 : List Char → Option (Nat × List Char)
  | c1 :: c2 :: c3 :: rest =>
    if isDigitCh c1 then
      if isDigitCh c2 then
        (if sepCh c3 then some (digitsToNat [c1, c2], rest) else none)
      else if sepCh c2 then some (digitsToNat [c1], c3 :: rest)
      else none
    else none
  | [c1, c2] =>
    if isDigitCh c1 && sepCh c2 then some (digitsToNat [c1], []) else none
  | _ => none

/-- After the four year digits the regex requires whitespace, `T` or the end
of the string. -/
def dmyTail (cs : List Char) : Bool :=
  match cs with
  | [] => true
  | c :: _ => isJsWs c || c = 'T'

/-- Model of `s.match(/^(\d{1,2})[\/\-](\d{1,2})[\/\-](\d{4})(?:\s|T|$)/)`,
returning (day, month, year) capture values. -/
def dmyMatchOf (cs : List Char) : Option (Nat × Nat × Nat) :=
  match grabNum12 cs with
  | some (d, rest1) =>
    match grabNum12 rest1 with
    | some (m, rest2) =>
      match rest2 with
      | y1 :: y2 :: y3 :: y4 :: rest3 =>
        if [y1, y2, y3, y4].all isDigitCh ∧ dmyTail rest3 then
          some (d, m, digitsToNat [y1, y2, y3, y4])
        else none
      | _ => none
    | none => none
  | none => none

/-- Function `parseDate` from src/utils/csvFilter.ts: epoch-seconds, then relative
phrases, then numeric day/month/year, then the absolute parse, then the
reference instant. The reference date is always supplied by the callers
modelled here (the source's optional-argument default is the sample-data
anchor). -/
def parseDate (dateStr : String) (referenceDate : Int) : Int :=
  let now := referenceDate
  let s := jsTrim dateStr
  let lower := jsLower s
  if s.data.length = 10 ∧ s.data.all isDigitCh then
    (digitsToNat s.data : Int) * 1000
  else
    let num : Int := match jsFirstIntOf lower with
      | some n => (n : Int)
      | none => 1
    if strIncludes lower "hour" then now - num * (60 * 60 * 1000)
    else if strIncludes lower "day" then now - num * (24 * 60 * 60 * 1000)
    else if strIncludes lower "week" then
      now - num * (7 * 24 * 60 * 60 * 1000)
    else if strIncludes lower "month" then
      now - num * (30 * 24 * 60 * 60 * 1000)
    else if strIncludes lower "year" then
      now - num * (365 * 24 * 60 * 60 * 1000)
    else
      let fallback := match parseIsoDate s.data with
        | some t => t
        | none => now
      match dmyMatchOf s.data with
      | some (day, mon, year) =>
        if 0 ≤ (mon : Int) - 1 ∧ (mon : Int) - 1 ≤ 11
            ∧ 1 ≤ (day : Int) ∧ (day : Int) ≤ 31 then
          jsMakeDate (year : Int) ((mon : Int) - 1) (day : Int)
        else fallback
      | none => fallback

/-! ## TimeWindowFilter (src/utils/csvFilter.ts)

The source functions read the wall clock via `new Date()`; the ambient
instant is made an explicit `now : Int` argument of the embedding. Month
counts are JavaScript numbers that may be fractional, modelled as `ℚ`;
`jsTrunc` models the truncation `new Date(ms)` applies to a fractional
millisecond value. -/

def jsTrunc (q : ℚ) : Int := if 0 ≤ q then Rat.floor q else Rat.ceil q

/-- The `months: number | 'all'` parameter of `filterCsvByTime`. -/
inductive TimeWindow where
  | all : TimeWindow
  | months : ℚ → TimeWindow
deriving DecidableEq

def LAST_WEEK_MONTHS : ℚ := mkRat 1 4

/-- csvFilter's `findHeaderRowIndex` (cells lower-cased but not trimmed). -/
def findHeaderRowIdxF (rows : List (List String)) : Nat :=
  match (rows.take 10).findIdx? (fun row =>
      let lower := joinWith " " (row.map jsLower)
      strIncludes lower "reviewer" || strIncludes lower "author") with
  | some i => i
  | none => 0

/-- Function `rowsToCsv`: re-serialize the header row and the kept data rows. -/
def rowsToCsv (headerRow : List String) (dataRows : List (List String)) :
    String :=
  let toLine := fun (cells : List String) =>
    joinWith "," (cells.map (fun c =>
      if strIncludes c "," || strIncludes c "\"" || strIncludes c "\n"
          || strIncludes c "\r" then
        "\"" ++ String.mk (doubleQuotesList c.data) ++ "\""
      else c))
  joinWith "\n" ((headerRow :: dataRows).map toLine)

/-- The date-column lookup shared by the three filters (exact match on the
lower-cased trimmed label). -/
def filterDateIdx (headerRow : List String) : Option Nat :=
  (headerRow.map (fun h => jsTrim (jsLower h))).findIdx?
    (fun c => c = "commented_at" || c = "time" || c = "date")

/-- The per-row date cell: `row[dateIdx]?.replace(/"/g, '').trim()`. -/
def rowDateValue (row : List String) (dateIdx : Nat) : String :=
  jsTrim (stripQuotes (row.getD dateIdx ""))

/-- Function `filterCsvByTime` from src/utils/csvFilter.ts, with the wall-clock
instant `now` passed explicitly. -/
def filterCsvByTime (csvContent : String) (months : TimeWindow) (now : Int) :
    String :=
  match months with
  | .all => csvContent
  | .months m =>
    let rows := parseCSV (jsTrim csvContent)
    if rows.length < 2 then csvContent
    else
      let headerRowIdx := findHeaderRowIdxF rows
      let headerRow := rows.getD headerRowIdx []
      match filterDateIdx headerRow with
      | none => csvContent
      | some dateIdx =>
        let cutoff : Int :=
          if m = LAST_WEEK_MONTHS then firstOfMonthTs now
          else jsTrunc ((now : ℚ) - m * 30 * 24 * 60 * 60 * 1000)
        let filteredRows := (rows.drop (headerRowIdx + 1)).filter (fun row =>
          let dateValue := rowDateValue row dateIdx
          !(dateValue = "") && decide (cutoff ≤ parseDate dateValue now)
            && decide (parseDate dateValue now ≤ now))
        rowsToCsv headerRow filteredRows

/-- Function `filterCsvByTimeRange` from src/utils/csvFilter.ts. -/
def filterCsvByTimeRange (csvContent : String)
    (startMonthsAgo endMonthsAgo : ℚ) (now : Int) : String :=
  if startMonthsAgo ≤ endMonthsAgo then ""
  else
    let rows := parseCSV (jsTrim csvContent)
    if rows.length < 2 then ""
    else
      let headerRowIdx := findHeaderRowIdxF rows
      let headerRow := rows.getD headerRowIdx []
      match filterDateIdx headerRow with
      | none => ""
      | some dateIdx =>
        let startCutoff : Int :=
          jsTrunc ((now : ℚ) - startMonthsAgo * 30 * 24 * 60 * 60 * 1000)
        let endCutoff : Int :=
          jsTrunc ((now : ℚ) - endMonthsAgo * 30 * 24 * 60 * 60 * 1000)
        let filteredRows := (rows.drop (headerRowIdx + 1)).filter (fun row =>
          let dateValue := rowDateValue row dateIdx
          !(dateValue = "") && decide (startCutoff ≤ parseDate dateValue now)
            && decide (parseDate dateValue now < endCutoff))
        rowsToCsv headerRow filteredRows

/-- Function `filterCsvByDaysRange` from src/utils/csvFilter.ts. -/
def filterCsvByDaysRange (csvContent : String)
    (startDaysAgo endDaysAgo : ℚ) (now : Int) : String :=
  if startDaysAgo ≤ endDaysAgo then ""
  else
    let rows := parseCSV (jsTrim csvContent)
    if rows.length < 2 then ""
    else
      let headerRowIdx := findHeaderRowIdxF rows
      let headerRow := rows.getD headerRowIdx []
      match filterDateIdx headerRow with
      | none => ""
      | some dateIdx =>
        let startCutoff : Int :=
          jsTrunc ((now : ℚ) - startDaysAgo * (24 * 60 * 60 * 1000))
        let endCutoff : Int :=
          jsTrunc ((now : ℚ) - endDaysAgo * (24 * 60 * 60 * 1000))
        let filteredRows := (rows.drop (headerRowIdx + 1)).filter (fun row =>
          let dateValue := rowDateValue row dateIdx
          !(dateValue = "") && decide (startCutoff ≤ parseDate dateValue now)
            && decide (parseDate dateValue now < endCutoff))
        rowsToCsv headerRow filteredRows

/-! ## Supporting lemmas: decimal digits, trimming, character classes -/

/-- Characters with special meaning to the CSV tokenizer / cell quoting. -/
def isCsvSpecial (c : Char) : Bool :=
  c = ',' || c = '"' || c = '\n' || c = '\r'

/-- A string whose characters are neither CSV-special nor quote-relevant. -/
def simpleStr (s : String) : Prop :=
  ∀ c ∈ s.data, isCsvSpecial c = false

theorem digitChar_isDigit (d : Nat) : isDigitCh (digitChar d) = true := by
  unfold digitChar
  repeat' split
  all_goals decide

theorem isDigit_toNat {c : Char} (h : isDigitCh c = true) :
    48 ≤ c.toNat ∧ c.toNat ≤ 57 := by
  simp only [isDigitCh, Bool.and_eq_true, decide_eq_true_eq] at h
  obtain ⟨h1, h2⟩ := by exact_mod_cast h
  exact ⟨h1, h2⟩

theorem isDigit_not_ws {c : Char} (h : isDigitCh c = true) :
    isJsWs c = false := by
  obtain ⟨h1, h2⟩ := isDigit_toNat h
  simp only [isJsWs, Bool.or_eq_false_iff, decide_eq_false_iff_not]
  refine ⟨⟨⟨⟨⟨?_, ?_⟩, ?_⟩, ?_⟩, ?_⟩, ?_⟩ <;>
    (intro hc; subst hc; simp_all)

theorem isDigit_not_special {c : Char} (h : isDigitCh c = true) :
    isCsvSpecial c = false := by
  obtain ⟨h1, h2⟩ := isDigit_toNat h
  simp only [isCsvSpecial, Bool.or_eq_false_iff, decide_eq_false_iff_not]
  refine ⟨⟨⟨?_, ?_⟩, ?_⟩, ?_⟩ <;> (intro hc; subst hc; simp_all)

theorem natDecimal_all_digits (n : Nat) :
    ∀ c ∈ natDecimal n, isDigitCh c = true := by
  induction n using Nat.strong_induction_on with
  | _ n ih =>
    rw [natDecimal_eq]
    split
    · intro c hc
      simp only [List.mem_singleton] at hc
      subst hc; exact digitChar_isDigit n
    · intro c hc
      rcases List.mem_append.mp hc with h | h
      · exact ih (n / 10) (Nat.div_lt_self (by omega) (by omega)) c h
      · simp only [List.mem_singleton] at h
        subst h; exact digitChar_isDigit (n % 10)

theorem natDecimal_ne_nil (n : Nat) : natDecimal n ≠ [] := by
  rw [natDecimal_eq]; split <;> simp

theorem digitsToNat_cons (c : Char) (cs : List Char) :
    digitsToNat (c :: cs) =
      digitsToNat cs + (c.toNat - 48) * 10 ^ cs.length := by
  have h : ∀ (l : List Char) (s : Nat),
      l.foldl (fun a c => a * 10 + (c.toNat - 48)) s =
        s * 10 ^ l.length + l.foldl (fun a c => a * 10 + (c.toNat - 48)) 0 := by
    intro l
    induction l with
    | nil => intro s; simp
    | cons d l ih =>
      intro s
      simp only [List.foldl_cons, List.length_cons]
      rw [ih (s * 10 + (d.toNat - 48)), ih (0 * 10 + (d.toNat - 48))]
      ring
  simp only [digitsToNat, List.foldl_cons]
  rw [h cs (0 * 10 + (c.toNat - 48))]
  ring

theorem digitsToNat_append (a b : List Char) :
    digitsToNat (a ++ b) = digitsToNat a * 10 ^ b.length + digitsToNat b := by
  induction a with
  | nil => simp [digitsToNat]
  | cons c a ih =>
    simp only [List.cons_append]
    rw [digitsToNat_cons, digitsToNat_cons, ih]
    simp only [List.length_append]
    ring

theorem digitChar_val (d : Nat) (h : d < 10) :
    (digitChar d).toNat - 48 = d := by
  interval_cases d <;> decide

theorem digitsToNat_natDecimal (n : Nat) : digitsToNat (natDecimal n) = n := by
  induction n using Nat.strong_induction_on with
  | _ n ih =>
    rw [natDecimal_eq]
    split
    · rename_i h
      simp [digitsToNat, digitChar_val n h]
    · rename_i h
      rw [digitsToNat_append,
        ih (n / 10) (Nat.div_lt_self (by omega) (by omega))]
      simp only [List.length_singleton, pow_one, digitsToNat,
        List.foldl_cons, List.foldl_nil]
      rw [digitChar_val (n % 10) (Nat.mod_lt n (by omega))]
      omega

theorem dropWhile_eq_self {α : Type} (p : α → Bool) (l : List α)
    (h : ∀ c ∈ l, p c = false) : l.dropWhile p = l := by
  cases l with
  | nil => rfl
  | cons a l =>
    rw [List.dropWhile_cons_of_neg]
    simp [h a (List.mem_cons_self a l)]

theorem jsTrimList_eq_self (cs : List Char) (h : ∀ c ∈ cs, isJsWs c = false) :
    jsTrimList cs = cs := by
  unfold jsTrimList
  rw [dropWhile_eq_self _ _ h, dropWhile_eq_self, List.reverse_reverse]
  intro c hc
  exact h c (List.mem_reverse.mp hc)

theorem jsTrim_eq_self (s : String) (h : ∀ c ∈ s.data, isJsWs c = false) :
    jsTrim s = s := by
  unfold jsTrim
  rw [jsTrimList_eq_self s.data h]

theorem natDecimal_str_digits (n : Nat) :
    ∀ c ∈ (String.mk (natDecimal n)).data, isDigitCh c = true :=
  natDecimal_all_digits n

/-- For a nonnegative rating, `String(rating)` is the plain decimal digit
string. -/
theorem jsIntStr_nonneg (i : Int) (h : 0 ≤ i) :
    jsIntStr i = String.mk (natDecimal i.toNat) := by
  unfold jsIntStr
  rw [if_neg (by omega)]

/-! ## Tokenizer structure lemmas -/

theorem strMk_data (s : String) : String.mk s.data = s := rfl

theorem parseCSVAux_nil (inQ : Bool) (cell : List Char) (row : List String)
    (rows : List (List String)) :
    parseCSVAux [] inQ cell row rows =
      if cell = [] ∧ row = [] then rows
      else rows ++ [row ++ [String.mk cell]] := rfl

theorem parseCSVAux_simple (c : Char) (rest : List Char) (cell : List Char)
    (row : List String) (rows : List (List String))
    (h : isCsvSpecial c = false) :
    parseCSVAux (c :: rest) false cell row rows =
      parseCSVAux rest false (cell ++ [c]) row rows := by
  simp only [isCsvSpecial, Bool.or_eq_false_iff, decide_eq_false_iff_not] at h
  obtain ⟨⟨⟨hc, hq⟩, hn⟩, hr⟩ := h
  simp [parseCSVAux, hq, hc, hn, hr]

theorem parseCSVAux_comma (rest : List Char) (cell : List Char)
    (row : List String) (rows : List (List String)) :
    parseCSVAux (',' :: rest) false cell row rows =
      parseCSVAux rest false [] (row ++ [String.mk cell]) rows := rfl

theorem parseCSVAux_newline (rest : List Char) (cell : List Char)
    (row : List String) (rows : List (List String)) :
    parseCSVAux ('\n' :: rest) false cell row rows =
      parseCSVAux rest false [] [] (rows ++ [row ++ [String.mk cell]]) := rfl

theorem parseCSVAux_run (cs : List Char)
    (h : ∀ c ∈ cs, isCsvSpecial c = false) :
    ∀ (rest : List Char) (cell : List Char) (row : List String)
      (rows : List (List String)),
      parseCSVAux (cs ++ rest) false cell row rows =
        parseCSVAux rest false (cell ++ cs) row rows := by
  induction cs with
  | nil => intro rest cell row rows; simp
  | cons c cs ih =>
    intro rest cell row rows
    rw [List.cons_append,
      parseCSVAux_simple c (cs ++ rest) cell row rows
        (h c (List.mem_cons_self c cs)),
      ih (fun d hd => h d (List.mem_cons_of_mem c hd)) rest (cell ++ [c])]
    simp

theorem joinWith_comma5_data (a b c d e : String) :
    (joinWith "," [a, b, c, d, e]).data =
      a.data ++ ',' :: (b.data ++ ',' :: (c.data ++ ',' :: (d.data ++ ',' ::
        e.data))) := by
  simp only [joinWith, String.data_append]
  simp [List.append_assoc]

theorem parseCSVAux_line5 (a b c d e : String)
    (ha : simpleStr a) (hb : simpleStr b) (hc : simpleStr c)
    (hd : simpleStr d) (he : simpleStr e) (t : List Char)
    (rows : List (List String)) :
    parseCSVAux ((joinWith "," [a, b, c, d, e]).data ++ '\n' :: t)
        false [] [] rows =
      parseCSVAux t false [] [] (rows ++ [[a, b, c, d, e]]) := by
  rw [joinWith_comma5_data]
  simp only [List.append_assoc, List.cons_append]
  rw [parseCSVAux_run a.data ha]
  simp only [List.nil_append]
  rw [parseCSVAux_comma, parseCSVAux_run b.data hb]
  simp only [List.nil_append]
  rw [parseCSVAux_comma, parseCSVAux_run c.data hc]
  simp only [List.nil_append]
  rw [parseCSVAux_comma, parseCSVAux_run d.data hd]
  simp only [List.nil_append]
  rw [parseCSVAux_comma, parseCSVAux_run e.data he]
  simp only [List.nil_append]
  rw [parseCSVAux_newline]
  simp [strMk_data]

theorem parseCSVAux_last5 (a b c d e : String)
    (ha : simpleStr a) (hb : simpleStr b) (hc : simpleStr c)
    (hd : simpleStr d) (he : simpleStr e) (rows : List (List String)) :
    parseCSVAux ((joinWith "," [a, b, c, d, e]).data) false [] [] rows =
      rows ++ [[a, b, c, d, e]] := by
  have hsplit : (joinWith "," [a, b, c, d, e]).data =
      a.data ++ ',' :: (b.data ++ ',' :: (c.data ++ ',' :: (d.data ++ ',' ::
        (e.data ++ [])))) := by
    rw [joinWith_comma5_data]; simp
  rw [hsplit]
  rw [parseCSVAux_run a.data ha]
  simp only [List.nil_append]
  rw [parseCSVAux_comma, parseCSVAux_run b.data hb]
  simp only [List.nil_append]
  rw [parseCSVAux_comma, parseCSVAux_run c.data hc]
  simp only [List.nil_append]
  rw [parseCSVAux_comma, parseCSVAux_run d.data hd]
  simp only [List.nil_append]
  rw [parseCSVAux_comma, parseCSVAux_run e.data he]
  simp only [List.nil_append]
  rw [parseCSVAux_nil]
  simp [strMk_data]

/-! ## Serialization round-trip lemmas -/

/-- A string free of CSV-special characters is decidably checkable. -/
instance simpleStrDec (s : String) : Decidable (simpleStr s) := by
  unfold simpleStr
  exact List.decidableBAll _ _

/-- A record whose string fields are trimmed and free of CSV-special
characters, with a nonnegative integer rating. -/
def GoodReview (r : Review) : Prop :=
  jsTrim r.author = r.author ∧ simpleStr r.author ∧
  jsTrim r.date = r.date ∧ simpleStr r.date ∧
  jsTrim r.content = r.content ∧ simpleStr r.content ∧
  jsTrim r.source = r.source ∧ simpleStr r.source ∧
  0 ≤ r.rating

/-- The cells of the canonical serialized row of a good review. -/
def cellsOf (r : Review) : List String :=
  [r.author, r.date, r.content, jsIntStr r.rating, r.source]

/-- Blank-field defaulting applied by extraction. -/
def defaultFill (r : Review) : Review :=
  { r with
    author := if r.author = "" then "Anonymous" else r.author
    source := if r.source = "" then "google" else r.source }

theorem listHasSub_single (c : Char) (l : List Char) :
    listHasSub [c] l = decide (c ∈ l) := by
  induction l with
  | nil => simp [listHasSub]
  | cons a l ih =>
    simp only [listHasSub] at ih ⊢
    rw [List.tails_cons]
    simp only [List.any_cons, ih, List.mem_cons]
    have hpre : [c].isPrefixOf (a :: l) = (c == a) := by
      simp [List.isPrefixOf]
    rw [hpre]
    by_cases hca : c = a
    · subst hca; simp
    · simp [hca, beq_iff_eq]

theorem takeWhile_eq_self {α : Type} (p : α → Bool) (l : List α)
    (h : ∀ c ∈ l, p c = true) : l.takeWhile p = l := by
  induction l with
  | nil => rfl
  | cons a l ih =>
    rw [List.takeWhile_cons_of_pos (h a (List.mem_cons_self a l))]
    rw [ih (fun c hc => h c (List.mem_cons_of_mem a hc))]

theorem strIncludes_special_false (s : String) (hs : simpleStr s) :
    strIncludes s "," = false ∧ strIncludes s "\"" = false ∧
    strIncludes s "\n" = false ∧ strIncludes s "\r" = false := by
  have h : ∀ c, isCsvSpecial c = true → strIncludes s (String.mk [c]) = false := by
    intro c hc
    unfold strIncludes
    rw [listHasSub_single]
    simp only [decide_eq_false_iff_not]
    intro hmem
    have hfalse := hs c hmem
    rw [hc] at hfalse
    exact absurd hfalse (by decide)
  exact ⟨h ',' (by decide), h '"' (by decide), h '\n' (by decide),
    h '\r' (by decide)⟩

theorem escapeCsvCell_simple (s : String) (htrim : jsTrim s = s)
    (hs : simpleStr s) : escapeCsvCell s = s := by
  obtain ⟨h1, h2, h3, h4⟩ := strIncludes_special_false s hs
  unfold escapeCsvCell
  rw [htrim]
  simp [h1, h2, h3, h4]

theorem simpleStr_digits (cs : List Char) (h : ∀ c ∈ cs, isDigitCh c = true) :
    simpleStr (String.mk cs) := fun c hc => isDigit_not_special (h c hc)

theorem jsTrim_digits (cs : List Char) (h : ∀ c ∈ cs, isDigitCh c = true) :
    jsTrim (String.mk cs) = String.mk cs :=
  jsTrim_eq_self _ (fun c hc => isDigit_not_ws (h c hc))

theorem escapeCsvCell_rating (i : Int) (h : 0 ≤ i) :
    escapeCsvCell (jsIntStr i) = jsIntStr i := by
  rw [jsIntStr_nonneg i h]
  exact escapeCsvCell_simple _
    (jsTrim_digits _ (natDecimal_all_digits _))
    (simpleStr_digits _ (natDecimal_all_digits _))

theorem firstDigitRun_all (cs : List Char)
    (h : ∀ c ∈ cs, isDigitCh c = true) (hne : cs ≠ []) :
    firstDigitRun cs = some cs := by
  cases cs with
  | nil => exact absurd rfl hne
  | cons c rest =>
    unfold firstDigitRun
    rw [if_pos (h c (List.mem_cons_self c rest))]
    rw [takeWhile_eq_self _ _ (fun d hd => h d (List.mem_cons_of_mem c hd))]

theorem jsFirstIntOf_rating (i : Int) (h : 0 ≤ i) :
    jsFirstIntOf (jsIntStr i) = some i.toNat := by
  rw [jsIntStr_nonneg i h]
  unfold jsFirstIntOf
  rw [firstDigitRun_all _ (natDecimal_all_digits _) (natDecimal_ne_nil _)]
  simp [digitsToNat_natDecimal]

/-- The serialized line of a review, as produced by `serializeReviews`. -/
def lineOf (r : Review) : String :=
  joinWith ","
    ([r.author, r.date, r.content, jsIntStr r.rating, r.source].map
      escapeCsvCell)

theorem serializeReviews_eq (rs : List Review) :
    serializeReviews rs =
      joinWith "\n" ("author,date,content,rating,source" :: rs.map lineOf) :=
  rfl

theorem lineOf_good (r : Review) (h : GoodReview r) :
    lineOf r = joinWith "," (cellsOf r) := by
  obtain ⟨t1, s1, t2, s2, t3, s3, t4, s4, hr⟩ := h
  unfold lineOf cellsOf
  simp only [List.map_cons, List.map_nil]
  rw [escapeCsvCell_simple _ t1 s1, escapeCsvCell_simple _ t2 s2,
    escapeCsvCell_simple _ t3 s3, escapeCsvCell_rating _ hr,
    escapeCsvCell_simple _ t4 s4]

theorem good_cells_simple (r : Review) (h : GoodReview r) :
    simpleStr r.author ∧ simpleStr r.date ∧ simpleStr r.content ∧
    simpleStr (jsIntStr r.rating) ∧ simpleStr r.source := by
  obtain ⟨_, s1, _, s2, _, s3, _, s4, hr⟩ := h
  refine ⟨s1, s2, s3, ?_, s4⟩
  rw [jsIntStr_nonneg _ hr]
  exact simpleStr_digits _ (natDecimal_all_digits _)

/-- Processing the data lines of a canonical serialization appends one
tokenized row per review. -/
theorem parseCSVAux_lines (rs : List Review) (h : ∀ r ∈ rs, GoodReview r)
    (rows : List (List String)) :
    parseCSVAux (joinWith "\n" (rs.map lineOf)).data false [] [] rows =
      rows ++ rs.map cellsOf := by
  induction rs generalizing rows with
  | nil =>
    simp only [List.map_nil, joinWith]
    rw [parseCSVAux_nil]
    simp

  | cons r rest ih =>
    obtain ⟨s1, s2, s3, s4, s5⟩ := good_cells_simple r (h r (by simp))
    have hgood : GoodReview r := h r (by simp)
    cases rest with
    | nil =>
      simp only [List.map_cons, List.map_nil, joinWith]
      rw [lineOf_good r hgood]
      simp only [cellsOf]
      rw [parseCSVAux_last5 _ _ _ _ _ s1 s2 s3 s4 s5]
    | cons r2 rest2 =>
      have hjoin : joinWith "\n" ((r :: r2 :: rest2).map lineOf) =
          lineOf r ++ "\n" ++ joinWith "\n" ((r2 :: rest2).map lineOf) := by
        simp [joinWith]
      rw [hjoin]
      have hdata : (lineOf r ++ "\n" ++
          joinWith "\n" ((r2 :: rest2).map lineOf)).data =
          (joinWith "," (cellsOf r)).data ++ '\n' ::
            (joinWith "\n" ((r2 :: rest2).map lineOf)).data := by
        rw [lineOf_good r hgood]
        simp [String.data_append]
      rw [hdata]
      simp only [cellsOf]
      rw [parseCSVAux_line5 _ _ _ _ _ s1 s2 s3 s4 s5]
      rw [ih (fun x hx => h x (List.mem_cons_of_mem r hx))]
      simp [cellsOf]

/-- Tokenizing a canonical serialization recovers the header cells and one
row of cells per review. -/
theorem parseCSV_serializeReviews (rs : List Review)
    (h : ∀ r ∈ rs, GoodReview r) :
    parseCSV (serializeReviews rs) =
      ["author", "date", "content", "rating", "source"] :: rs.map cellsOf := by
  have hhdr : ("author,date,content,rating,source" : String) =
      joinWith "," ["author", "date", "content", "rating", "source"] := by
    decide
  cases rs with
  | nil =>
    rw [serializeReviews_eq]
    simp only [List.map_nil, joinWith]
    unfold parseCSV
    rw [hhdr, parseCSVAux_last5]
    · simp
    all_goals decide
  | cons r rest =>
    rw [serializeReviews_eq]
    have hjoin : joinWith "\n"
        ("author,date,content,rating,source" :: (r :: rest).map lineOf) =
        "author,date,content,rating,source" ++ "\n" ++
          joinWith "\n" ((r :: rest).map lineOf) := by
      simp [joinWith]
    rw [hjoin]
    unfold parseCSV
    have hdata : ("author,date,content,rating,source" ++ "\n" ++
        joinWith "\n" ((r :: rest).map lineOf)).data =
        (joinWith "," ["author", "date", "content", "rating", "source"]).data
          ++ '\n' :: (joinWith "\n" ((r :: rest).map lineOf)).data := by
      rw [← hhdr]
      simp [String.data_append]
    rw [hdata, parseCSVAux_line5]
    · rw [parseCSVAux_lines _ h]
      simp
    all_goals decide

theorem headerRowIdxOf_canonical (l : List (List String)) :
    headerRowIdxOf (["author", "date", "content", "rating", "source"] :: l)
      = 0 := by
  unfold headerRowIdxOf
  rw [show (10 : Nat) = 9 + 1 from rfl, List.take_succ_cons,
    List.findIdx?_cons]
  rw [if_pos (by decide)]

theorem headerOf_canonical (l : List (List String)) :
    headerOf (["author", "date", "content", "rating", "source"] :: l) =
      ["author", "date", "content", "rating", "source"] := by
  unfold headerOf
  rw [headerRowIdxOf_canonical, List.getD_cons_zero]
  decide

theorem rowToReview_cellsOf (r : Review) (h : GoodReview r) :
    rowToReview 0 2 3 (some 1) (some 4) (cellsOf r) = defaultFill r := by
  obtain ⟨t1, _, t2, _, t3, _, t4, _, hr⟩ := h
  unfold rowToReview cellsOf defaultFill optCell
  simp only [List.getD_cons_zero, List.getD_cons_succ]
  rw [jsFirstIntOf_rating _ hr, t1, t2, t3, t4]
  simp only [orDefault]
  congr 1
  exact Int.toNat_of_nonneg hr

/-- Round-trip core: extracting a canonical serialization of good records
reproduces them in order, modulo blank-field defaulting. -/
theorem parseReviews_serializeReviews (rs : List Review)
    (h : ∀ r ∈ rs, GoodReview r) :
    parseReviews (serializeReviews rs) = rs.map defaultFill := by
  have hcsv := parseCSV_serializeReviews rs h
  have hne : ¬(serializeReviews rs = "") := by
    intro he
    rw [he] at hcsv
    rw [show parseCSV "" = [] from rfl] at hcsv
    exact List.noConfusion hcsv
  cases rs with
  | nil =>
    unfold parseReviews
    rw [if_neg hne]
    simp only [hcsv]
    norm_num
  | cons r rest =>
    unfold parseReviews
    rw [if_neg hne]
    simp only [hcsv]
    rw [if_neg (by simp)]
    rw [headerOf_canonical]
    rw [show authorIdxOf ["author", "date", "content", "rating", "source"]
      = some 0 from by decide]
    rw [show contentIdxOf ["author", "date", "content", "rating", "source"]
      = some 2 from by decide]
    rw [show ratingIdxOf ["author", "date", "content", "rating", "source"]
      = some 3 from by decide]
    rw [show dateIdxOf ["author", "date", "content", "rating", "source"]
      = some 1 from by decide]
    rw [show sourceIdxOf ["author", "date", "content", "rating", "source"]
      = some 4 from by decide]
    rw [headerRowIdxOf_canonical]
    simp only [List.drop_succ_cons, List.drop_zero]
    rw [List.filter_eq_self.mpr]
    · rw [List.map_map]
      refine List.map_congr_left ?_
      intro x hx
      exact rowToReview_cellsOf x (h x hx)
    · intro a ha
      obtain ⟨x, _, hx⟩ := List.mem_map.mp ha
      subst hx
      simp [cellsOf]

/-! ## Merge-loop verification

The JS loop drives a `Map` from fingerprints to first-occurrence indices.
`firstIdx` is the specification of that map; the loop as a whole is related
to `mergeSimple`, a first-match-update formulation, through the invariant
`InvSt`. -/

/-- Index of the first occurrence of a key in a list. -/
def firstIdx : List String → String → Option Nat
  | [], _ => none
  | x :: rest, k =>
    if x = k then some 0 else (firstIdx rest k).map (· + 1)

/-- Overwrite the date of the first review with the given fingerprint. -/
def updFirst (key d : String) : List Review → List Review
  | [] => []
  | r :: rs =>
    if fingerprintNoDate r = key then setDate r d :: rs
    else r :: updFirst key d rs

/-- First-match-update formulation of the merge loop. -/
def mergeSimple : List Review → List Review → List Review
  | acc, [] => acc
  | acc, n :: rest =>
    let key := fingerprintNoDate n
    if key ∈ acc.map fingerprintNoDate then
      mergeSimple (updFirst key n.date acc) rest
    else mergeSimple (acc ++ [n]) rest

theorem fp_setDate (r : Review) (d : String) :
    fingerprintNoDate (setDate r d) = fingerprintNoDate r := rfl

theorem updFirst_map_fp (key d : String) (l : List Review) :
    (updFirst key d l).map fingerprintNoDate = l.map fingerprintNoDate := by
  induction l with
  | nil => rfl
  | cons r rs ih =>
    unfold updFirst
    split
    · simp [fp_setDate]
    · simp [ih]

theorem updFirst_length (key d : String) (l : List Review) :
    (updFirst key d l).length = l.length := by
  induction l with
  | nil => rfl
  | cons r rs ih =>
    unfold updFirst
    split <;> simp [ih]

theorem lookupKey_append (m : KeyMap) (k k' : String) (v : Nat) :
    lookupKey (m ++ [(k, v)]) k' =
      match lookupKey m k' with
      | some x => some x
      | none => if k = k' then some v else none := by
  induction m with
  | nil => simp [lookupKey]
  | cons p m ih =>
    obtain ⟨a, b⟩ := p
    simp only [List.cons_append, lookupKey]
    split
    · rfl
    · exact ih

theorem firstIdx_append (l : List String) (k k' : String) :
    firstIdx (l ++ [k']) k =
      match firstIdx l k with
      | some i => some i
      | none => if k' = k then some l.length else none := by
  induction l with
  | nil => simp [firstIdx]
  | cons x l ih =>
    simp only [List.cons_append, firstIdx, List.append_eq]
    split
    · rfl
    · rw [ih]
      cases h : firstIdx l k
      · simp only [Option.map_none']
        split <;> simp [List.length_cons]
      · simp

theorem firstIdx_eq_none_iff (l : List String) (k : String) :
    firstIdx l k = none ↔ k ∉ l := by
  induction l with
  | nil => simp [firstIdx]
  | cons x l ih =>
    unfold firstIdx
    split
    · rename_i h
      subst h
      simp
    · rename_i h
      simp only [Option.map_eq_none', List.mem_cons]
      constructor
      · intro hn hmem
        rcases hmem with h1 | h1
        · exact h (h1.symm)
        · exact (ih.mp (by simpa using hn)) h1
      · intro hn
        have : k ∉ l := fun hm => hn (Or.inr hm)
        simp [ih.mpr this]

theorem firstIdx_some_spec (l : List String) (k : String) :
    ∀ (i : Nat), firstIdx l k = some i →
      l.get? i = some k ∧ ∀ j < i, l.get? j ≠ some k := by
  induction l with
  | nil => intro i h; simp [firstIdx] at h
  | cons x l ih =>
    intro i h
    unfold firstIdx at h
    split at h
    · rename_i hx
      subst hx
      cases h
      exact ⟨rfl, by omega⟩
    · rename_i hx
      cases hfi : firstIdx l k with
      | none => rw [hfi] at h; simp at h
      | some j =>
        rw [hfi] at h
        simp only [Option.map_some'] at h
        cases h
        obtain ⟨h1, h2⟩ := ih j hfi
        refine ⟨h1, ?_⟩
        intro j' hj'
        cases j' with
        | zero =>
          simp only [List.get?_cons_zero]
          intro hcon
          exact hx (by injection hcon)
        | succ j'' =>
          simp only [List.get?_cons_succ]
          exact h2 j'' (by omega)

theorem firstIdx_of_first (l : List String) (k : String) :
    ∀ (i : Nat), l.get? i = some k → (∀ j < i, l.get? j ≠ some k) →
      firstIdx l k = some i := by
  induction l with
  | nil => intro i h; simp at h
  | cons x l ih =>
    intro i h hfirst
    cases i with
    | zero =>
      simp only [List.get?_cons_zero] at h
      injection h with h
      unfold firstIdx
      rw [if_pos h]
    | succ i' =>
      simp only [List.get?_cons_succ] at h
      have hx : ¬(x = k) := by
        intro hx
        exact hfirst 0 (by omega) (by simp [hx])
      unfold firstIdx
      rw [if_neg hx]
      rw [ih i' h (fun j hj => by
        have := hfirst (j + 1) (by omega)
        simpa using this)]
      rfl

theorem buildKeyMapAux_lookup (rs : List Review) :
    ∀ (m : KeyMap) (i : Nat) (k : String),
      lookupKey (buildKeyMapAux rs m i) k =
        match lookupKey m k with
        | some v => some v
        | none => (firstIdx (rs.map fingerprintNoDate) k).map (· + i) := by
  induction rs with
  | nil =>
    intro m i k
    simp only [buildKeyMapAux, List.map_nil, firstIdx]
    cases lookupKey m k <;> simp
  | cons r rs ih =>
    intro m i k
    simp only [buildKeyMapAux, List.map_cons, firstIdx]
    split
    · rename_i hsome
      rw [ih m (i + 1) k]
      obtain ⟨v, hv⟩ := Option.isSome_iff_exists.mp hsome
      cases hmk : lookupKey m k with
      | some w => simp
      | none =>
        have hne : ¬(fingerprintNoDate r = k) := by
          intro he
          rw [he, hmk] at hv
          exact Option.noConfusion hv
        rw [if_neg hne]
        cases firstIdx (rs.map fingerprintNoDate) k <;> simp <;> omega
    · rename_i hnone
      have hnone' : lookupKey m (fingerprintNoDate r) = none := by
        cases hmn : lookupKey m (fingerprintNoDate r)
        · rfl
        · rw [hmn] at hnone; simp at hnone
      rw [ih (m ++ [(fingerprintNoDate r, i)]) (i + 1) k]
      rw [lookupKey_append]
      by_cases hk : fingerprintNoDate r = k
      · subst hk
        rw [hnone']
        simp
      · cases hmk : lookupKey m k with
        | some w => simp [if_neg hk]
        | none =>
          simp only [if_neg hk]
          cases firstIdx (rs.map fingerprintNoDate) k <;> simp <;> omega

theorem buildKeyMap_lookup (rs : List Review) (k : String) :
    lookupKey (buildKeyMap rs) k =
      firstIdx (rs.map fingerprintNoDate) k := by
  unfold buildKeyMap
  rw [buildKeyMapAux_lookup rs [] 0 k]
  simp [lookupKey]

/-- The loop invariant: the map is exactly the first-occurrence index of
each fingerprint, and every fingerprint seen in the new batch already
occurs in the accumulated list. -/
def InvSt (st : MergeState) : Prop :=
  (∀ k, lookupKey st.byKey k =
    firstIdx (st.reviews.map fingerprintNoDate) k) ∧
  (∀ k ∈ st.seenNew, k ∈ st.reviews.map fingerprintNoDate)

theorem updFirst_eq_set (l : List Review) (key d : String) :
    ∀ (i : Nat) (old : Review),
      firstIdx (l.map fingerprintNoDate) key = some i →
      l.get? i = some old →
      updFirst key d l = l.set i (setDate old d) := by
  induction l with
  | nil => intro i old h; simp [firstIdx] at h
  | cons r rs ih =>
    intro i old h hget
    simp only [List.map_cons, firstIdx] at h
    unfold updFirst
    split at h
    · rename_i hr
      cases h
      simp only [List.get?_cons_zero] at hget
      injection hget with hget
      subst hget
      rw [if_pos hr]
      rfl
    · rename_i hr
      cases hfi : firstIdx (rs.map fingerprintNoDate) key with
      | none => rw [hfi] at h; simp at h
      | some j =>
        rw [hfi] at h
        simp only [Option.map_some'] at h
        cases h
        simp only [List.get?_cons_succ] at hget
        rw [if_neg hr, ih j old hfi hget]
        rfl

theorem mergeLoop_eq_mergeSimple (N : List Review) :
    ∀ (st : MergeState), InvSt st →
      (mergeLoop st N).reviews = mergeSimple st.reviews N := by
  induction N with
  | nil => intro st _; rfl
  | cons n rest ih =>
    intro st hinv
    obtain ⟨hmap, hseen⟩ := hinv
    simp only [mergeLoop, mergeSimple]
    cases hk : lookupKey st.byKey (fingerprintNoDate n) with
    | some idx =>
      have hfi : firstIdx (st.reviews.map fingerprintNoDate)
          (fingerprintNoDate n) = some idx := by rw [← hmap]; exact hk
      have hmem : fingerprintNoDate n ∈
          st.reviews.map fingerprintNoDate := by
        by_contra hcon
        rw [← firstIdx_eq_none_iff] at hcon
        rw [hcon] at hfi
        exact Option.noConfusion hfi
      rw [if_pos hmem]
      obtain ⟨hget, _⟩ := firstIdx_some_spec _ _ idx hfi
      rw [List.get?_map] at hget
      dsimp only
      cases hro : st.reviews.get? idx with
      | none =>
        rw [hro] at hget
        exact Option.noConfusion hget
      | some old =>
        dsimp only
        have hset : st.reviews.set idx (setDate old n.date) =
            updFirst (fingerprintNoDate n) n.date st.reviews := by
          rw [updFirst_eq_set st.reviews _ n.date idx old hfi hro]
        have hinv' : InvSt { st with
            reviews := st.reviews.set idx (setDate old n.date) } := by
          constructor
          · intro k
            show lookupKey st.byKey k = _
            rw [hset, updFirst_map_fp]
            exact hmap k
          · intro k hkmem
            show k ∈ _
            rw [hset, updFirst_map_fp]
            exact hseen k hkmem
        rw [ih _ hinv']
        show mergeSimple (st.reviews.set idx (setDate old n.date)) rest = _
        rw [hset]
    | none =>
      have hfi : firstIdx (st.reviews.map fingerprintNoDate)
          (fingerprintNoDate n) = none := by rw [← hmap]; exact hk
      have hnmem : fingerprintNoDate n ∉
          st.reviews.map fingerprintNoDate :=
        (firstIdx_eq_none_iff _ _).mp hfi
      rw [if_neg hnmem]
      dsimp only
      have hnseen : fingerprintNoDate n ∉ st.seenNew := by
        intro hmm
        exact hnmem (hseen _ hmm)
      rw [if_neg hnseen]
      have hinv' : InvSt (MergeState.mk (st.reviews ++ [n])
          (st.byKey ++ [(fingerprintNoDate n, st.reviews.length)])
          (fingerprintNoDate n :: st.seenNew)) := by
        constructor
        · intro k
          show lookupKey (st.byKey ++ [(fingerprintNoDate n,
            st.reviews.length)]) k = firstIdx ((st.reviews ++ [n]).map
              fingerprintNoDate) k
          rw [lookupKey_append, List.map_append, List.map_cons,
            List.map_nil, firstIdx_append, hmap k]
          cases firstIdx (st.reviews.map fingerprintNoDate) k <;>
            first
              | rfl
              | (simp only [List.length_map]; split <;> rfl)
              | simp only [List.length_map]
        · intro k hkmem
          show k ∈ (st.reviews ++ [n]).map fingerprintNoDate
          simp only [List.map_append, List.map_cons, List.map_nil,
            List.mem_append]
          rcases List.mem_cons.mp hkmem with h1 | h1
          · right; simp [h1]
          · left; exact hseen k h1
      rw [ih _ hinv']

theorem mergeLists_eq_mergeSimple (E N : List Review) :
    mergeLists E N = mergeSimple E N := by
  unfold mergeLists
  exact mergeLoop_eq_mergeSimple N _ ⟨fun k => buildKeyMap_lookup E k,
    fun k hk => absurd hk (List.not_mem_nil k)⟩

theorem mergeSimple_length (N : List Review) :
    ∀ (acc : List Review),
      (mergeSimple acc N).length =
        acc.length + ((N.map fingerprintNoDate).toFinset \
          (acc.map fingerprintNoDate).toFinset).card := by
  induction N with
  | nil => intro acc; simp [mergeSimple]
  | cons n rest ih =>
    intro acc
    simp only [mergeSimple]
    split
    · rename_i hmem
      rw [ih (updFirst (fingerprintNoDate n) n.date acc)]
      rw [updFirst_length, updFirst_map_fp]
      simp only [List.map_cons, List.toFinset_cons]
      rw [Finset.insert_sdiff_of_mem _ (List.mem_toFinset.mpr hmem)]
    · rename_i hmem
      rw [ih (acc ++ [n])]
      simp only [List.map_append, List.toFinset_append, List.map_cons,
        List.map_nil, List.toFinset_cons, List.toFinset_nil,
        List.length_append, List.length_cons, List.length_nil]
      have hknotacc : fingerprintNoDate n ∉
          (acc.map fingerprintNoDate).toFinset := by
        intro hcon
        exact hmem (List.mem_toFinset.mp hcon)
      have hsd : (rest.map fingerprintNoDate).toFinset \
          ((acc.map fingerprintNoDate).toFinset ∪
            insert (fingerprintNoDate n) ∅) =
          ((rest.map fingerprintNoDate).toFinset \
            (acc.map fingerprintNoDate).toFinset).erase
              (fingerprintNoDate n) := by
        ext x
        simp only [Finset.mem_sdiff, Finset.mem_union, Finset.mem_insert,
          Finset.mem_erase, Finset.not_mem_empty, or_false]
        tauto
      have hins : insert (fingerprintNoDate n)
            (rest.map fingerprintNoDate).toFinset \
          (acc.map fingerprintNoDate).toFinset =
          insert (fingerprintNoDate n)
            ((rest.map fingerprintNoDate).toFinset \
              (acc.map fingerprintNoDate).toFinset) :=
        Finset.insert_sdiff_of_not_mem _ hknotacc
      rw [hsd, hins]
      by_cases hk2 : fingerprintNoDate n ∈
          (rest.map fingerprintNoDate).toFinset \
            (acc.map fingerprintNoDate).toFinset
      · rw [Finset.card_erase_of_mem hk2,
          Finset.insert_eq_self.mpr hk2]
        have hpos : 0 < ((rest.map fingerprintNoDate).toFinset \
            (acc.map fingerprintNoDate).toFinset).card :=
          Finset.card_pos.mpr ⟨_, hk2⟩
        omega
      · rw [Finset.erase_eq_of_not_mem hk2,
          Finset.card_insert_of_not_mem hk2]
        omega

theorem mergeLists_length (E N : List Review) :
    (mergeLists E N).length =
      E.length + ((N.map fingerprintNoDate).toFinset \
        (E.map fingerprintNoDate).toFinset).card := by
  rw [mergeLists_eq_mergeSimple, mergeSimple_length]

/-- The merge loop applied to a single new review whose fingerprint first
matches the existing review at index `i`. -/
theorem mergeSimple_single_dup (E : List Review) (n : Review) (i : Nat)
    (old : Review) (hget : E.get? i = some old)
    (hfp : fingerprintNoDate old = fingerprintNoDate n)
    (hfirst : ∀ j, j < i → ∀ r', E.get? j = some r' →
      fingerprintNoDate r' ≠ fingerprintNoDate n) :
    mergeSimple E [n] = E.set i (setDate old n.date) := by
  have hmget : (E.map fingerprintNoDate).get? i =
      some (fingerprintNoDate n) := by
    rw [List.get?_map, hget, Option.map_some', hfp]
  have hmfirst : ∀ j, j < i →
      (E.map fingerprintNoDate).get? j ≠ some (fingerprintNoDate n) := by
    intro j hj
    rw [List.get?_map]
    cases hej : E.get? j with
    | none => simp
    | some r' =>
      simp only [Option.map_some', ne_eq, Option.some.injEq]
      exact hfirst j hj r' hej
  have hfi : firstIdx (E.map fingerprintNoDate) (fingerprintNoDate n) =
      some i := firstIdx_of_first _ _ i hmget hmfirst
  have hmem : fingerprintNoDate n ∈ E.map fingerprintNoDate := by
    by_contra hcon
    rw [← firstIdx_eq_none_iff] at hcon
    rw [hcon] at hfi
    exact Option.noConfusion hfi
  simp only [mergeSimple]
  rw [if_pos hmem]
  rw [updFirst_eq_set E _ n.date i old hfi hget]

/-- The guarded path of `mergeReviewsInCsv` that actually merges. -/
theorem mergeReviewsInCsv_eq_merge (e n : String) (he : ¬(e = ""))
    (hn : ¬(n = ""))
    (hguard : ¬(1 < jsLineCount (jsTrim e) ∧ parseReviews e = []))
    (hnew : ¬(parseReviews n = [])) :
    mergeReviewsInCsv e n =
      serializeReviews (mergeLists (parseReviews e) (parseReviews n)) := by
  unfold mergeReviewsInCsv
  rw [if_neg he, if_neg hn, if_neg hguard, if_neg hnew]

/-! ## Claim C3 -/

/-- C3 counterexample: the claim "merge returns `existingCsvText` unchanged
whenever `newCsvText` extracts to zero reviews" fails at the concrete input
`existingCsvText = ""`, `newCsvText = "x"`: the new text extracts to zero
reviews, yet the merge returns `"x"`, not the (empty) existing text. -/
theorem claim3_counterexample :
    parseReviews "x" = [] ∧ mergeReviewsInCsv "" "x" = "x" ∧
      ¬(("x" : String) = "") :=
  ⟨by decide, by decide, by decide⟩

/-- C3 (amended): when `existingCsvText` is nonempty, merge returns it
unchanged whenever `newCsvText` extracts to zero reviews (including a
missing/empty `newCsvText`); it also returns it unchanged whenever
`existingCsvText` has more than one line but extracts to zero reviews;
and when `existingCsvText` is empty, the result is `newCsvText` (empty when
both are empty). In all these cases no stored data is altered. -/
theorem claim3_amended :
    (∀ e n : String, ¬(e = "") → parseReviews n = [] →
      mergeReviewsInCsv e n = e) ∧
    (∀ e n : String, 1 < jsLineCount (jsTrim e) → parseReviews e = [] →
      mergeReviewsInCsv e n = e) ∧
    (∀ n : String, mergeReviewsInCsv "" n = n) := by
  refine ⟨?_, ?_, ?_⟩
  · intro e n he hn
    unfold mergeReviewsInCsv
    rw [if_neg he]
    by_cases hn0 : n = ""
    · rw [if_pos hn0]
    · rw [if_neg hn0]
      by_cases hg : 1 < jsLineCount (jsTrim e) ∧ parseReviews e = []
      · rw [if_pos hg]
      · rw [if_neg hg, if_pos hn]
  · intro e n hline hpe
    have he : ¬(e = "") := by
      intro h
      subst h
      exact absurd hline (by decide)
    unfold mergeReviewsInCsv
    rw [if_neg he]
    by_cases hn0 : n = ""
    · rw [if_pos hn0]
    · rw [if_neg hn0, if_pos ⟨hline, hpe⟩]
  · intro n
    unfold mergeReviewsInCsv
    rw [if_pos rfl]
    by_cases hn0 : n = ""
    · rw [if_pos hn0, hn0]
    · rw [if_neg hn0]

/-- Witness for C3 (amended) at concrete inputs. -/
theorem claim3_witness :
    mergeReviewsInCsv "author,content,rating\nA,x,5" "zzz" =
      "author,content,rating\nA,x,5" ∧
    mergeReviewsInCsv "a\nb" "whatever" = "a\nb" ∧
    mergeReviewsInCsv "" "q" = "q" :=
  ⟨claim3_amended.1 _ _ (by decide) (by decide),
   claim3_amended.2.1 _ _ (by decide) (by decide),
   claim3_amended.2.2 "q"⟩

/-! ## Claim C4 -/

/-- C4 counterexample: existing extracts to K = 1 review with distinct
fingerprints; the new CSV extracts to M = 2 reviews, both copies of one
fresh review (D_unique = 0 collisions with existing). The claim predicts
K + (M − D_unique) = 3 merged reviews, but the merge deduplicates the
within-batch copy and the merged result contains 2. -/
theorem claim4_counterexample :
    (parseReviews "author,content,rating\nA,x,5").length = 1 ∧
    ((parseReviews "author,content,rating\nA,x,5").map
      fingerprintNoDate).Nodup ∧
    (parseReviews "author,content,rating\nB,y,4\nB,y,4").length = 2 ∧
    (((parseReviews "author,content,rating\nB,y,4\nB,y,4").map
        fingerprintNoDate).toFinset ∩
      ((parseReviews "author,content,rating\nA,x,5").map
        fingerprintNoDate).toFinset).card = 0 ∧
    (parseReviews (mergeReviewsInCsv "author,content,rating\nA,x,5"
      "author,content,rating\nB,y,4\nB,y,4")).length = 2 ∧
    ¬((2 : Nat) = 1 + (2 - 0)) := by
  refine ⟨by decide, by decide, by decide, by decide, by decide, by decide⟩

/-- C4 (amended): for a nonempty, non-corrupt existing CSV whose K
extracted reviews have K distinct fingerprints and a nonempty new CSV
extracting to at least one review, the merged result serializes a list of
exactly K + U reviews, where U is the number of distinct fingerprints of
the new batch that do not occur among the existing fingerprints. When the
new batch itself has no duplicate fingerprints this equals the claim's
K + (M − D_unique), with D_unique the number of distinct new fingerprints
colliding with existing ones. -/
theorem claim4_amended (e n : String) (he : ¬(e = "")) (hn : ¬(n = ""))
    (hguard : ¬(1 < jsLineCount (jsTrim e) ∧ parseReviews e = []))
    (hnew : ¬(parseReviews n = []))
    (hnodup : ((parseReviews e).map fingerprintNoDate).Nodup) :
    mergeReviewsInCsv e n =
      serializeReviews (mergeLists (parseReviews e) (parseReviews n)) ∧
    (mergeLists (parseReviews e) (parseReviews n)).length =
      (parseReviews e).length +
        (((parseReviews n).map fingerprintNoDate).toFinset \
          ((parseReviews e).map fingerprintNoDate).toFinset).card ∧
    (((parseReviews n).map fingerprintNoDate).Nodup →
      (mergeLists (parseReviews e) (parseReviews n)).length =
        (parseReviews e).length + ((parseReviews n).length -
          (((parseReviews n).map fingerprintNoDate).toFinset ∩
            ((parseReviews e).map fingerprintNoDate).toFinset).card)) := by
  refine ⟨mergeReviewsInCsv_eq_merge e n he hn hguard hnew,
    mergeLists_length _ _, ?_⟩
  intro hnodupN
  rw [mergeLists_length]
  have hcard : (((parseReviews n).map fingerprintNoDate).toFinset \
        ((parseReviews e).map fingerprintNoDate).toFinset).card +
      (((parseReviews n).map fingerprintNoDate).toFinset ∩
        ((parseReviews e).map fingerprintNoDate).toFinset).card =
      ((parseReviews n).map fingerprintNoDate).toFinset.card :=
    Finset.card_sdiff_add_card_inter _ _
  have hlen : ((parseReviews n).map fingerprintNoDate).toFinset.card =
      (parseReviews n).length := by
    rw [List.toFinset_card_of_nodup hnodupN, List.length_map]
  omega

/-- Witness for C4 (amended): existing has 2 reviews, new has one
colliding and one fresh review, so the merged list has 2 + 1 records. -/
theorem claim4_witness :
    mergeReviewsInCsv "author,content,rating\nA,x,5\nB,y,4"
        "author,content,rating\nB,y,4\nC,z,3" =
      serializeReviews (mergeLists
        (parseReviews "author,content,rating\nA,x,5\nB,y,4")
        (parseReviews "author,content,rating\nB,y,4\nC,z,3")) ∧
    (mergeLists (parseReviews "author,content,rating\nA,x,5\nB,y,4")
        (parseReviews "author,content,rating\nB,y,4\nC,z,3")).length =
      (parseReviews "author,content,rating\nA,x,5\nB,y,4").length +
        (((parseReviews "author,content,rating\nB,y,4\nC,z,3").map
            fingerprintNoDate).toFinset \
          ((parseReviews "author,content,rating\nA,x,5\nB,y,4").map
            fingerprintNoDate).toFinset).card ∧
    (((parseReviews "author,content,rating\nB,y,4\nC,z,3").map
        fingerprintNoDate).Nodup →
      (mergeLists (parseReviews "author,content,rating\nA,x,5\nB,y,4")
          (parseReviews "author,content,rating\nB,y,4\nC,z,3")).length =
        (parseReviews "author,content,rating\nA,x,5\nB,y,4").length +
          ((parseReviews "author,content,rating\nB,y,4\nC,z,3").length -
            (((parseReviews "author,content,rating\nB,y,4\nC,z,3").map
                fingerprintNoDate).toFinset ∩
              ((parseReviews "author,content,rating\nA,x,5\nB,y,4").map
                fingerprintNoDate).toFinset).card)) :=
  claim4_amended _ _ (by decide) (by decide) (by decide) (by decide)
    (by decide)

/-! ## Claim C5 -/

/-- C5: when the single new review's fingerprint (case- and
whitespace-insensitive author and content plus exact rating) first matches
the existing review at index `i`, the merge output serializes exactly the
existing list with only that review's date replaced: every other field and
every other review is unchanged and nothing is appended. -/
theorem claim5_frame (e nc : String) (E : List Review) (n : Review)
    (i : Nat) (old : Review)
    (he : ¬(e = "")) (hnc : ¬(nc = ""))
    (hE : parseReviews e = E) (hN : parseReviews nc = [n])
    (hget : E.get? i = some old)
    (hfp : fingerprintNoDate old = fingerprintNoDate n)
    (hfirst : ∀ j, j < i → ∀ r', E.get? j = some r' →
      fingerprintNoDate r' ≠ fingerprintNoDate n) :
    mergeReviewsInCsv e nc =
      serializeReviews (E.set i (setDate old n.date)) ∧
    (E.set i (setDate old n.date)).length = E.length := by
  have hguard : ¬(1 < jsLineCount (jsTrim e) ∧ parseReviews e = []) := by
    rw [hE]
    rintro ⟨_, hEnil⟩
    rw [hEnil] at hget
    simp at hget
  have hnew : ¬(parseReviews nc = []) := by
    rw [hN]
    simp
  constructor
  · rw [mergeReviewsInCsv_eq_merge e nc he hnc hguard hnew, hE, hN,
      mergeLists_eq_mergeSimple,
      mergeSimple_single_dup E n i old hget hfp hfirst]
  · exact List.length_set E i _

/-- Witness for C5 at a concrete input where the new review differs from
the stored one only by letter casing and whitespace run length. -/
theorem claim5_witness :
    mergeReviewsInCsv
        "author,date,content,rating,source\nJohn  Smith,3 days ago,Great,5,google"
        "author,date,content,rating,source\njohn smith,1 day ago,Great,5,google" =
      serializeReviews
        ([Review.mk "John  Smith" "3 days ago" "Great" 5 "google"].set 0
          (setDate (Review.mk "John  Smith" "3 days ago" "Great" 5 "google")
            "1 day ago")) ∧
    ([Review.mk "John  Smith" "3 days ago" "Great" 5 "google"].set 0
      (setDate (Review.mk "John  Smith" "3 days ago" "Great" 5 "google")
        "1 day ago")).length =
      [Review.mk "John  Smith" "3 days ago" "Great" 5 "google"].length :=
  claim5_frame _ _ _ (Review.mk "john smith" "1 day ago" "Great" 5 "google")
    0 _ (by decide) (by decide) (by decide) (by decide) (by decide)
    (by decide) (fun j hj _ _ => absurd hj (Nat.not_lt_zero j))

/-! ## Claims C6, C7, C8 -/

instance goodReviewDec (r : Review) : Decidable (GoodReview r) := by
  unfold GoodReview
  infer_instance

/-- C6: for records with trimmed, CSV-simple string fields and nonnegative
integer rating, `parseReviews (serializeReviews rs)` reproduces the records
in order modulo default-filling of blank author ("Anonymous") and blank
source ("google"); and a content cell with embedded commas and quotes is
reproduced exactly through doubled-quote escaping. -/
theorem claim6_roundtrip :
    (∀ rs : List Review, (∀ r ∈ rs, GoodReview r) →
      parseReviews (serializeReviews rs) = rs.map defaultFill) ∧
    parseReviews (serializeReviews
        [Review.mk "John" "2025-01-01" "He said \"hi\", then left" 5
          "google"]) =
      [Review.mk "John" "2025-01-01" "He said \"hi\", then left" 5
        "google"] :=
  ⟨parseReviews_serializeReviews, by decide⟩

/-- Witness for C6 at a concrete record list (with one blank author that is
default-filled). -/
theorem claim6_witness :
    (∀ r ∈ [Review.mk "Ann" "2 days ago" "Nice place" 4 "tripadvisor",
        Review.mk "" "2025-03-01" "Ok" 3 "google"], GoodReview r) ∧
    parseReviews (serializeReviews
        [Review.mk "Ann" "2 days ago" "Nice place" 4 "tripadvisor",
          Review.mk "" "2025-03-01" "Ok" 3 "google"]) =
      [Review.mk "Ann" "2 days ago" "Nice place" 4 "tripadvisor",
        Review.mk "" "2025-03-01" "Ok" 3 "google"].map defaultFill :=
  ⟨by decide, claim6_roundtrip.1 _ (by decide)⟩

/-- The definitional unfolding of `parseReviews` with its lets expanded. -/
theorem parseReviews_eq (csv : String) :
    parseReviews csv =
      if csv = "" then []
      else if (parseCSV csv).length < 2 then []
      else
        match authorIdxOf (headerOf (parseCSV csv)),
            contentIdxOf (headerOf (parseCSV csv)),
            ratingIdxOf (headerOf (parseCSV csv)) with
        | some ai, some ci, some ri =>
          (((parseCSV csv).drop (headerRowIdxOf (parseCSV csv) + 1)).filter
              (fun row => 1 < row.length)).map
            (rowToReview ai ci ri (dateIdxOf (headerOf (parseCSV csv)))
              (sourceIdxOf (headerOf (parseCSV csv))))
        | _, _, _ => [] := rfl

/-- C7 counterexample: at the concrete input below the extractor produces a
review with rating 10, outside the claimed interval [0, 5]. -/
theorem claim7_counterexample :
    ¬(∀ r ∈ parseReviews "author,content,rating\na,b,10",
        0 ≤ r.rating ∧ r.rating ≤ 5) := by
  intro h
  have hmem := h (Review.mk "a" "" "b" 10 "google") (by decide)
  exact absurd hmem.2 (by decide)

/-- C7 (amended): every extracted review's rating is a nonnegative integer
(`0` when no digit run parses), but it is not bounded above by 5. -/
theorem claim7_amended (csv : String) (r : Review)
    (hr : r ∈ parseReviews csv) : 0 ≤ r.rating := by
  rw [parseReviews_eq] at hr
  split at hr
  · exact absurd hr (List.not_mem_nil r)
  · split at hr
    · exact absurd hr (List.not_mem_nil r)
    · split at hr
      · obtain ⟨cells, _, hcells⟩ := List.mem_map.mp hr
        subst hcells
        unfold rowToReview
        dsimp only
        split
        · exact Int.natCast_nonneg _
        · exact le_refl 0
      · exact absurd hr (List.not_mem_nil r)

/-- Witness for C7 (amended) at a concrete input. -/
theorem claim7_witness : 0 ≤ (Review.mk "a" "" "b" 10 "google").rating :=
  claim7_amended "author,content,rating\na,b,10" _ (by decide)

/-- C8: if any of the required author/content/rating columns is not found
in the discovered header row, extraction yields the empty sequence; when
all three are found, a surviving data row (more than one cell) guarantees a
nonempty result, regardless of whether date or source columns exist. -/
theorem claim8_required_columns :
    (∀ csv : String,
      (authorIdxOf (headerOf (parseCSV csv)) = none ∨
        contentIdxOf (headerOf (parseCSV csv)) = none ∨
        ratingIdxOf (headerOf (parseCSV csv)) = none) →
      parseReviews csv = []) ∧
    (∀ (csv : String) (ai ci ri : Nat),
      ∀ row ∈ (parseCSV csv).drop (headerRowIdxOf (parseCSV csv) + 1),
      authorIdxOf (headerOf (parseCSV csv)) = some ai →
      contentIdxOf (headerOf (parseCSV csv)) = some ci →
      ratingIdxOf (headerOf (parseCSV csv)) = some ri →
      1 < row.length →
      ¬(parseReviews csv = [])) := by
  constructor
  · intro csv h
    rw [parseReviews_eq]
    split
    · rfl
    · split
      · rfl
      · split
        · rename_i ai ci ri ha hc hrt
          rcases h with h | h | h <;> simp_all
        · rfl
  · intro csv ai ci ri row hrow ha hc hrt hlen
    have hne : (parseCSV csv).drop (headerRowIdxOf (parseCSV csv) + 1)
        ≠ [] := List.ne_nil_of_mem hrow
    have hlen2 : ¬((parseCSV csv).length < 2) := by
      intro hcon
      have hle : (parseCSV csv).length ≤ headerRowIdxOf (parseCSV csv) + 1 :=
        by omega
      exact hne (List.drop_eq_nil_of_le hle)
    have hcsv : ¬(csv = "") := by
      intro h0
      subst h0
      exact hlen2 (by decide)
    rw [parseReviews_eq, if_neg hcsv, if_neg hlen2, ha, hc, hrt]
    have hmem : row ∈ ((parseCSV csv).drop
        (headerRowIdxOf (parseCSV csv) + 1)).filter
          (fun row => 1 < row.length) :=
      List.mem_filter.mpr ⟨hrow, by simpa using hlen⟩
    exact List.ne_nil_of_mem (List.mem_map_of_mem _ hmem)

/-- Witness for C8: a CSV with no author column extracts to nothing; a CSV
with the three required columns and one data row (and no date or source
column) extracts to a nonempty result. -/
theorem claim8_witness :
    parseReviews "a,b\nc,d" = [] ∧
    ¬(parseReviews "author,content,rating\nA,x,5" = []) :=
  ⟨claim8_required_columns.1 "a,b\nc,d" (by decide),
   claim8_required_columns.2 "author,content,rating\nA,x,5" 0 1 2
     ["A", "x", "5"] (by decide) (by decide) (by decide) (by decide)
     (by decide)⟩

/-! ## Claims C1, C2, C9 -/

theorem jsMakeDate_eq_civil (y m d : Int) (hy : 100 ≤ y)
    (hm1 : 1 ≤ m) (hm2 : m ≤ 12) :
    jsMakeDate y (m - 1) d = MS_PER_DAY * daysFromCivil y m d := by
  unfold jsMakeDate
  rw [if_neg (by omega)]
  rw [Int.fdiv_eq_ediv _ (by omega),
    Int.ediv_eq_zero_of_lt (by omega) (by omega)]
  rw [Int.fmod_eq_emod _ (by omega),
    Int.emod_eq_of_lt (by omega) (by omega)]
  simp only [add_zero, sub_add_cancel]

/-- C2 counterexample: the relative-phrase rule runs before the numeric
day/month/year rule, so "03/04/2025 Monday" (which matches the numeric form
but whose trailing weekday name contains the unit keyword "day") resolves
to referenceInstant − 3 days, not to 2025-04-03; and a 4-digit year below
0100 is mapped by the `Date` constructor to 19xx, so "01/01/0099" resolves
to 1999-01-01, not year 99. -/
theorem claim2_counterexample :
    dmyMatchOf (jsTrim "03/04/2025 Monday").data = some (3, 4, 2025) ∧
    parseDate "03/04/2025 Monday" (jsMakeDate 2026 0 11) =
      jsMakeDate 2026 0 11 - 3 * (24 * 60 * 60 * 1000) ∧
    ¬(parseDate "03/04/2025 Monday" (jsMakeDate 2026 0 11) =
      MS_PER_DAY * daysFromCivil 2025 4 3) ∧
    dmyMatchOf (jsTrim "01/01/0099").data = some (1, 1, 99) ∧
    parseDate "01/01/0099" 0 = MS_PER_DAY * daysFromCivil 1999 1 1 ∧
    ¬(MS_PER_DAY * daysFromCivil 1999 1 1 =
      MS_PER_DAY * daysFromCivil 99 1 1) :=
  ⟨by decide, by decide, by decide, by decide, by decide, by decide⟩

/-- C2 (amended): for a date string whose trimmed text matches the numeric
day/month/year form (1-2 digit day and month, 4-digit year, slash or dash
separators) followed by whitespace, `T` or end of input, with month in
[1,12], day in [1,31] and year ≥ 100, which is not exactly ten digits AND
whose lower-cased text contains none of the relative unit keywords
hour/day/week/month/year, `parseDate` returns the day-month-year calendar
instant. -/
theorem claim2_amended (s : String) (now : Int) (d m y : Nat)
    (hmatch : dmyMatchOf (jsTrim s).data = some (d, m, y))
    (h10 : ¬((jsTrim s).data.length = 10 ∧
      ((jsTrim s).data.all isDigitCh) = true))
    (hhour : strIncludes (jsLower (jsTrim s)) "hour" = false)
    (hday : strIncludes (jsLower (jsTrim s)) "day" = false)
    (hweek : strIncludes (jsLower (jsTrim s)) "week" = false)
    (hmonth : strIncludes (jsLower (jsTrim s)) "month" = false)
    (hyear : strIncludes (jsLower (jsTrim s)) "year" = false)
    (hm1 : 1 ≤ m) (hm2 : m ≤ 12) (hd1 : 1 ≤ d) (hd2 : d ≤ 31)
    (hy : 100 ≤ y) :
    parseDate s now = MS_PER_DAY * daysFromCivil y m d := by
  simp only [parseDate]
  rw [if_neg h10]
  simp only [hhour, hday, hweek, hmonth, hyear, Bool.false_eq_true,
    if_false]
  rw [hmatch]
  dsimp only
  rw [if_pos (by omega)]
  have := jsMakeDate_eq_civil (y : Int) (m : Int) (d : Int)
    (by omega) (by omega) (by omega)
  exact this

/-- Witness for C2 (amended): "15/06/2025" resolves to 2025-06-15. -/
theorem claim2_witness :
    parseDate "15/06/2025" 0 = MS_PER_DAY * daysFromCivil 2025 6 15 :=
  claim2_amended "15/06/2025" 0 15 6 2025 (by decide) (by decide)
    (by decide) (by decide) (by decide) (by decide) (by decide)
    (by decide) (by decide) (by decide) (by decide) (by decide)

/-- C1 counterexample: with the quarter-month window (N = 0.25) and
reference instant 2026-01-11, the filter keeps the row dated "9 days ago"
— whose resolved date lies BELOW the claimed cutoff now − 7.5 days — and
drops the row with an empty date cell, whose resolved date (the reference
instant itself) lies inside the claimed interval [now − 7.5 days, now].
The code's actual cutoff for N = 0.25 is the first day of the current
month. -/
theorem claim1_counterexample :
    filterCsvByTime "author,time\nA,9 days ago\nB," (.months (mkRat 1 4))
        (jsMakeDate 2026 0 11) = "author,time\nA,9 days ago" ∧
    ¬(jsTrunc ((jsMakeDate 2026 0 11 : ℚ) - mkRat 1 4 * 2592000000) ≤
      parseDate "9 days ago" (jsMakeDate 2026 0 11)) ∧
    (jsTrunc ((jsMakeDate 2026 0 11 : ℚ) - mkRat 1 4 * 2592000000) ≤
        parseDate "" (jsMakeDate 2026 0 11) ∧
      parseDate "" (jsMakeDate 2026 0 11) ≤ jsMakeDate 2026 0 11) :=
  ⟨by decide, by decide, by decide⟩

/-- C1 (amended): for every CSV with at least two tokenized rows and a
discoverable date column, `filterCsvByTime` with a numeric month count N
keeps exactly the data rows whose quote-stripped, trimmed date cell is
nonempty and whose resolved date lies in the closed interval
[cutoff, now], where cutoff = now − N×30 days (N×2592000000 ms, truncated)
for N ≠ 0.25, and cutoff = the first day of the month containing now for
N = 0.25. -/
theorem claim1_amended (csv : String) (m : ℚ) (now : Int) (dateIdx : Nat)
    (hrows : ¬((parseCSV (jsTrim csv)).length < 2))
    (hdate : filterDateIdx ((parseCSV (jsTrim csv)).getD
      (findHeaderRowIdxF (parseCSV (jsTrim csv))) []) = some dateIdx) :
    filterCsvByTime csv (.months m) now =
      rowsToCsv ((parseCSV (jsTrim csv)).getD
          (findHeaderRowIdxF (parseCSV (jsTrim csv))) [])
        (((parseCSV (jsTrim csv)).drop
            (findHeaderRowIdxF (parseCSV (jsTrim csv)) + 1)).filter
          (fun row =>
            let dateValue := rowDateValue row dateIdx
            let cutoff : Int :=
              if m = LAST_WEEK_MONTHS then firstOfMonthTs now
              else jsTrunc ((now : ℚ) - m * 2592000000)
            !(dateValue = "") && decide (cutoff ≤ parseDate dateValue now)
              && decide (parseDate dateValue now ≤ now))) := by
  have hcut : ∀ mq : ℚ, mq * 30 * 24 * 60 * 60 * 1000 =
      mq * 2592000000 := by
    intro mq; ring
  simp only [filterCsvByTime]
  rw [if_neg hrows, hdate]
  dsimp only
  simp only [hcut]

/-- Witness for C1 (amended) at a concrete input. -/
theorem claim1_witness :
    filterCsvByTime "author,time\nA,20 days ago" (.months 1)
        (jsMakeDate 2026 0 11) =
      rowsToCsv ((parseCSV (jsTrim "author,time\nA,20 days ago")).getD
          (findHeaderRowIdxF
            (parseCSV (jsTrim "author,time\nA,20 days ago"))) [])
        (((parseCSV (jsTrim "author,time\nA,20 days ago")).drop
            (findHeaderRowIdxF
              (parseCSV (jsTrim "author,time\nA,20 days ago")) + 1)).filter
          (fun row =>
            let dateValue := rowDateValue row 1
            let cutoff : Int :=
              if (1 : ℚ) = LAST_WEEK_MONTHS then
                firstOfMonthTs (jsMakeDate 2026 0 11)
              else jsTrunc ((jsMakeDate 2026 0 11 : ℚ) - 1 * 2592000000)
            !(dateValue = "") &&
              decide (cutoff ≤ parseDate dateValue (jsMakeDate 2026 0 11))
              && decide (parseDate dateValue (jsMakeDate 2026 0 11) ≤
                jsMakeDate 2026 0 11))) :=
  claim1_amended "author,time\nA,20 days ago" 1 (jsMakeDate 2026 0 11) 1
    (by decide) (by decide)

/-- C9 counterexample: the three filters read the ambient clock; at the
concrete CSV below (one absolutely-dated row), calls with identical
csvContent and window parameters but different wall-clock instants return
different output. -/
theorem claim9_counterexample :
    ¬(filterCsvByTime "author,date\nA,2026-01-05" (.months 1)
        (jsMakeDate 2026 0 11) =
      filterCsvByTime "author,date\nA,2026-01-05" (.months 1)
        (jsMakeDate 2020 0 1)) ∧
    ¬(filterCsvByTimeRange "author,date\nA,2026-01-05" 1 0
        (jsMakeDate 2026 0 11) =
      filterCsvByTimeRange "author,date\nA,2026-01-05" 1 0
        (jsMakeDate 2020 0 1)) ∧
    ¬(filterCsvByDaysRange "author,date\nA,2026-01-05" 7 0
        (jsMakeDate 2026 0 11) =
      filterCsvByDaysRange "author,date\nA,2026-01-05" 7 0
        (jsMakeDate 2020 0 1)) :=
  ⟨by decide, by decide, by decide⟩

/-- C9 (amended): each filter is a pure function of its csvContent, its
window parameters AND the wall-clock instant sampled at entry: two calls
agreeing on all of these return identical output. -/
theorem claim9_amended (c1 c2 : String) (w1 w2 : TimeWindow)
    (a1 a2 b1 b2 d1 d2 e1 e2 : ℚ) (t1 t2 : Int)
    (hc : c1 = c2) (hw : w1 = w2) (ha : a1 = a2) (hb : b1 = b2)
    (hd : d1 = d2) (he : e1 = e2) (ht : t1 = t2) :
    filterCsvByTime c1 w1 t1 = filterCsvByTime c2 w2 t2 ∧
    filterCsvByTimeRange c1 a1 b1 t1 = filterCsvByTimeRange c2 a2 b2 t2 ∧
    filterCsvByDaysRange c1 d1 e1 t1 = filterCsvByDaysRange c2 d2 e2 t2 := by
  subst hc; subst hw; subst ha; subst hb; subst hd; subst he; subst ht
  exact ⟨rfl, rfl, rfl⟩

/-- Witness for C9 (amended) at concrete inputs. -/
theorem claim9_witness :
    filterCsvByTime "author,date\nA,2026-01-05" (.months 1)
        (jsMakeDate 2026 0 11) =
      filterCsvByTime "author,date\nA,2026-01-05" (.months 1)
        (jsMakeDate 2026 0 11) ∧
    filterCsvByTimeRange "author,date\nA,2026-01-05" 1 0
        (jsMakeDate 2026 0 11) =
      filterCsvByTimeRange "author,date\nA,2026-01-05" 1 0
        (jsMakeDate 2026 0 11) ∧
    filterCsvByDaysRange "author,date\nA,2026-01-05" 7 0
        (jsMakeDate 2026 0 11) =
      filterCsvByDaysRange "author,date\nA,2026-01-05" 7 0
        (jsMakeDate 2026 0 11) :=
  claim9_amended "author,date\nA,2026-01-05" "author,date\nA,2026-01-05"
    (.months 1) (.months 1) 1 1 0 0 7 7 0 0 (jsMakeDate 2026 0 11)
    (jsMakeDate 2026 0 11) rfl rfl rfl rfl rfl rfl rfl

/-! ## Claim C10 -/

theorem dropWhile_head_not {α : Type} (p : α → Bool) :
    ∀ (l : List α) (b : α) (bs : List α),
      l.dropWhile p = b :: bs → p b = false := by
  intro l
  induction l with
  | nil => intro b bs h; simp [List.dropWhile] at h
  | cons a l ih =>
    intro b bs h
    rw [List.dropWhile] at h
    split at h
    · exact ih b bs h
    · rename_i hpa
      injection h with h1 _
      subst h1
      simpa using hpa

theorem jsTrimList_idem (cs : List Char) :
    jsTrimList (jsTrimList cs) = jsTrimList cs := by
  have h1 : List.dropWhile isJsWs
      (List.rdropWhile isJsWs (cs.dropWhile isJsWs)) =
      List.rdropWhile isJsWs (cs.dropWhile isJsWs) := by
    cases hB : List.rdropWhile isJsWs (cs.dropWhile isJsWs) with
    | nil => rfl
    | cons b bs =>
      obtain ⟨t, ht⟩ := List.rdropWhile_prefix isJsWs (cs.dropWhile isJsWs)
      rw [hB] at ht
      have hA : List.dropWhile isJsWs cs = b :: (bs ++ t) := by
        rw [← ht]
        simp
      have hb : isJsWs b = false :=
        dropWhile_head_not isJsWs cs b (bs ++ t) hA
      rw [List.dropWhile_cons_of_neg (by simp [hb])]
  calc jsTrimList (jsTrimList cs)
      = List.rdropWhile isJsWs (List.dropWhile isJsWs
          (List.rdropWhile isJsWs (cs.dropWhile isJsWs))) := rfl
    _ = List.rdropWhile isJsWs
          (List.rdropWhile isJsWs (cs.dropWhile isJsWs)) := by rw [h1]
    _ = List.rdropWhile isJsWs (cs.dropWhile isJsWs) :=
          List.rdropWhile_idempotent _ _
    _ = jsTrimList cs := rfl

theorem jsTrim_idem (s : String) : jsTrim (jsTrim s) = jsTrim s :=
  congrArg String.mk (jsTrimList_idem s.data)

/-- A review with every string field trimmed. -/
def trimFields (r : Review) : Review :=
  { r with
    author := jsTrim r.author
    date := jsTrim r.date
    content := jsTrim r.content
    source := jsTrim r.source }

/-- C10: the serializer trims every cell before writing: escaping a value
is the same as escaping its trimmed form, serializing any record list is
the same as serializing the field-trimmed records, and concretely a review
with untrimmed author " John " comes back from a serialize/extract cycle
with the trimmed author "John", not the original field verbatim. -/
theorem claim10_serialize_trims :
    (∀ v : String, escapeCsvCell v = escapeCsvCell (jsTrim v)) ∧
    (∀ rs : List Review,
      serializeReviews rs = serializeReviews (rs.map trimFields)) ∧
    (parseReviews (serializeReviews
        [Review.mk " John " "2025-01-01" "hi" 5 "google"]) =
      [Review.mk "John" "2025-01-01" "hi" 5 "google"] ∧
      ("John" : String) ≠ " John ") := by
  have hesc : ∀ v : String, escapeCsvCell v = escapeCsvCell (jsTrim v) := by
    intro v
    unfold escapeCsvCell
    rw [jsTrim_idem]
  refine ⟨hesc, ?_, by decide, by decide⟩
  intro rs
  have hline : ∀ r : Review,
      joinWith "," (List.map escapeCsvCell
        [r.author, r.date, r.content, jsIntStr r.rating, r.source]) =
      joinWith "," (List.map escapeCsvCell
        [(trimFields r).author, (trimFields r).date, (trimFields r).content,
          jsIntStr (trimFields r).rating, (trimFields r).source]) := by
    intro r
    simp only [trimFields, List.map_cons, List.map_nil]
    rw [← hesc r.author, ← hesc r.date, ← hesc r.content, ← hesc r.source]
  simp only [serializeReviews, List.map_map]
  congr 1
  congr 1
  exact List.map_congr_left (fun r _ => hline r)

/-- Witness for C10 at a concrete untrimmed cell value. -/
theorem claim10_witness :
    escapeCsvCell "  x  " = escapeCsvCell (jsTrim "  x  ") :=
  claim10_serialize_trims.1 "  x  "

end SentixAI
